import Mathlib

/-!
# Verification of the downloaderstress-python crawl-and-download engine

Shallow embedding of the `DownloadThread` core of `src/test.py` ("T1") and
`src/test-3.py` ("T3"): `count_files`, `download_file`, `download_directory`
and `run`, together with theorems settling the specification claims.

Modelling conventions:
* The network is an oracle `Env`: for every URL and per-URL attempt number it
  yields the listing response (status + the anchors found by
  `BeautifulSoup(...).find_all('a')`, each anchor carrying its optional
  `href`) or the stream response (status, optional `Location` header, parsed
  `content-length`, the chunk sizes yielded by `iter_content(1024)`, and
  whether a transport error is raised while iterating the body).
* `self._is_canceled` is read at the suspension points of the source; the
  i-th read returns `env.cancel i`.  The `cancel()` slot only ever sets the
  flag, which is expressed, where needed, by a monotonicity hypothesis.
  The pause wait-loop (`while self._is_paused: sleep(0.1)`) has no effect on
  any modelled state and is modelled as terminating with no effect.
* Python exceptions are `Res.exn`: `ZeroDivisionError` from the progress
  percentages, `TypeError` from `url + None` when an anchor has no href,
  `KeyError` from a missing `Location` header, `requests.RequestException`
  from the transport.  `Res.div` models exhausting the step fuel that
  replaces the unbounded `while True` loops and the unbounded recursion.
* Emitted Qt signals, issued requests, `time.sleep` calls and file writes are
  recorded in an event trace.  Percentage values abstract CPython float
  rounding by natural division; the division-by-zero conditions are modelled
  exactly.
-/

namespace Downloader

/-- Python exceptions that can arise in the modelled code. -/
inductive PyErr where
  | zeroDiv   -- ZeroDivisionError
  | typeErr   -- TypeError (str + None)
  | keyErr    -- KeyError (missing Location header on a 302)
  | reqExc    -- requests.RequestException
deriving DecidableEq

/-- The log lines the thread emits, identified by kind. -/
inductive LogK where
  | skipMsg          -- "Skipping already downloaded file"
  | redirectMsg      -- "Redirected to: ..."
  | netIssue         -- "Network issue encountered ..."
  | failedDownload   -- "Failed to download {url}: {status}"
  | failedAccess     -- "Failed to access {url}: {status}"
  | downloadedMsg    -- "Downloaded: {file_path} ..."
  | enteringDir      -- "Entering directory: ..."
  | downloadingFile  -- "Downloading file: ..."
  | errorOccurred    -- "An error occurred: {e}"
deriving DecidableEq

/-- Observable events: Qt signals, requests on the wire, sleeps, writes. -/
inductive Ev where
  | fileProgress (pct : Nat)        -- progress_signal.emit
  | overallProgress (pct : Nat)     -- overall_progress_signal.emit
  | logLine (k : LogK)              -- log_signal.emit
  | complete                        -- complete_signal.emit
  | canceled                        -- canceled_signal.emit
  | fileCount (n : Nat)             -- file_count_signal.emit
  | timeRemaining                   -- time_remaining_signal.emit (text abstracted)
  | sleep (secs : Nat)              -- time.sleep
  | msgBox                          -- QMessageBox.warning (test.py show_retry_message)
  | reqListing (url : String) (ua : Bool)               -- requests.get(url) for a listing
  | reqStream (url : String) (ua : Bool) (auth : Bool)  -- requests.get(url, stream=True)
  | fileWrite (bytes : Nat)         -- f.write(chunk)
deriving DecidableEq

/-- Response of a listing fetch: HTTP status plus the anchors of the parsed
page (each with its optional `href` attribute), or a transport error. -/
inductive ListingResp where
  | ok (status : Nat) (anchors : List (Option String))
  | netErr
deriving DecidableEq

/-- Successful stream-open response. -/
structure StreamOk where
  status : Nat
  location : Option String   -- `Location` header, consulted on a 302 (test-3)
  contentLength : Nat        -- int(response.headers.get('content-length', 0))
  chunks : List Nat          -- sizes of the chunks yielded by iter_content(1024)
  bodyFail : Bool            -- a transport error raised while iterating the body
deriving DecidableEq

/-- Response of a stream open, or a transport error at open time. -/
inductive StreamResp where
  | ok (r : StreamOk)
  | netErr
deriving DecidableEq

/-- The network/cancellation oracle.  Responses may depend on the per-URL
attempt number (the network can behave differently on a retry). -/
structure Env where
  listing : String → Nat → ListingResp
  stream : String → Nat → StreamResp
  cancel : Nat → Bool        -- value of self._is_canceled at its i-th read

/-- The mutable state of one `DownloadThread` run, plus bookkeeping:
per-URL attempt counters, the cancel-flag read counter and the event trace. -/
structure St where
  downloaded_files : Nat
  total_files : Nat
  total_size : Nat
  completed_files : List String   -- self.completed_files (a set of paths)
  pending_files : List String     -- self.pending_files
  ledger : List String            -- contents of download_progress.txt
  dirs : List String              -- local directories that exist
  listA : String → Nat            -- listing-fetch attempts per URL
  streamA : String → Nat          -- stream-open attempts per URL
  flagI : Nat                     -- number of cancel-flag reads so far
  events : List Ev

/-- Initial state of a run: `__init__` loads the ledger into
`completed_files`; counters start at zero. -/
def initSt (led : List String) : St :=
  { downloaded_files := 0, total_files := 0, total_size := 0
    completed_files := led, pending_files := [], ledger := led, dirs := []
    listA := fun _ => 0, streamA := fun _ => 0, flagI := 0, events := [] }

/-- Result of running a piece of code: a value, an uncaught Python
exception, or divergence (out of fuel). -/
inductive Res (α : Type) where
  | ok (a : α)
  | exn (e : PyErr)
  | div
deriving DecidableEq

def emit (e : Ev) (s : St) : St := { s with events := s.events ++ [e] }

/-- One read of `self._is_canceled`. -/
def readCancel (env : Env) (s : St) : Bool × St :=
  (env.cancel s.flagI, { s with flagI := s.flagI + 1 })

/-- `requests.get(url)` for a listing (no headers are passed for listing
fetches in either source file, hence `ua`; it is recorded in the trace). -/
def listingGet (env : Env) (url : String) (ua : Bool) (s : St) :
    Res (Nat × List (Option String)) × St :=
  let s1 : St :=
    { s with listA := fun u => if u = url then s.listA u + 1 else s.listA u
             events := s.events ++ [Ev.reqListing url ua] }
  match env.listing url (s.listA url) with
  | ListingResp.ok status anchors => (Res.ok (status, anchors), s1)
  | ListingResp.netErr => (Res.exn PyErr.reqExc, s1)

/-- `requests.get(url, stream=True, ...)`. -/
def streamGet (env : Env) (url : String) (ua auth : Bool) (s : St) :
    Res StreamOk × St :=
  let s1 : St :=
    { s with streamA := fun u => if u = url then s.streamA u + 1 else s.streamA u
             events := s.events ++ [Ev.reqStream url ua auth] }
  match env.stream url (s.streamA url) with
  | StreamResp.ok r => (Res.ok r, s1)
  | StreamResp.netErr => (Res.exn PyErr.reqExc, s1)

/-! ## String helpers (Python semantics, kernel-reducible) -/

/-- `url.split('/')[-1]`: the suffix after the last `'/'`. -/
def afterLastSlash (s : String) : String :=
  String.mk ((s.data.reverse.takeWhile (fun c => c ≠ '/')).reverse)

/-- `href.endswith('/')`. -/
def endsWithSlash (s : String) : Bool :=
  match s.data.getLast? with
  | some c => c == '/'
  | none => false

/-- `os.path.join(d, f)` for the two-argument posix case. -/
def pjoin (d f : String) : String :=
  match f.data.head? with
  | some c =>
    if c == '/' then f
    else match d.data.getLast? with
      | none => f
      | some c' => if c' == '/' then d ++ f else d ++ "/" ++ f
  | none =>
    match d.data.getLast? with
    | none => f
    | some c' => if c' == '/' then d ++ f else d ++ "/" ++ f

/-! ## count_files (identical in test.py lines 58-83 and test-3.py 62-87)

```
def count_files(self, url):
    total = 0
    try:
        response = requests.get(url)
        if response.status_code != 200:
            return total
        soup = BeautifulSoup(response.text, 'html.parser')
        links = soup.find_all('a')
        for link in links:
            href = link.get('href')
            if href in ('../', './'):
                continue
            full_url = url + href
            if href.endswith('/'):
                total += self.count_files(full_url)
            else:
                total += 1
    except requests.RequestException:
        pass
    return total
```
The `except` returns the `total` accumulated so far, which is mirrored by
carrying the accumulator through the loop: if a recursive call ever ended in
`RequestException`, the loop would stop and the accumulator be returned
(in fact recursive calls never raise it — they catch their own). -/

def countLinks (url : String) (rec : String → St → Res Nat × St) :
    List (Option String) → Nat → St → Res Nat × St
  | [], acc, s => (Res.ok acc, s)
  | none :: _, _, s =>
      -- link.get('href') is None: `None in ('../','./')` is False, then
      -- `url + None` raises TypeError, which the except does not catch.
      (Res.exn PyErr.typeErr, s)
  | some h :: rest, acc, s =>
    if h = "../" ∨ h = "./" then countLinks url rec rest acc s
    else if endsWithSlash h then
      match rec (url ++ h) s with
      | (Res.ok n, s1) => countLinks url rec rest (acc + n) s1
      | (Res.exn PyErr.reqExc, s1) => (Res.ok acc, s1)  -- caught: return total
      | (Res.exn e, s1) => (Res.exn e, s1)
      | (Res.div, s1) => (Res.div, s1)
    else
      countLinks url rec rest (acc + 1) s

def count_files (env : Env) : Nat → String → St → Res Nat × St
  | 0, _, s => (Res.div, s)
  | fuel+1, url, s =>
    match listingGet env url false s with
    | (Res.exn _, s1) => (Res.ok 0, s1)   -- except RequestException: pass
    | (Res.div, s1) => (Res.div, s1)
    | (Res.ok (status, anchors), s1) =>
      if status = 200 then
        countLinks url (fun u t => count_files env fuel u t) anchors 0 s1
      else (Res.ok 0, s1)

/-! ## The chunked read loop (test.py 109-120, test-3.py 126-136)

```
for chunk in response.iter_content(1024):
    if chunk:
        f.write(chunk)
        self.progress_signal.emit(int(f.tell() / file_size * 100))
    while self._is_paused:
        time.sleep(0.1)
    if self._is_canceled:
        self.canceled_signal.emit()
        return
```
A zero-sized chunk models a falsy chunk (no write, no progress emission).
`int(f.tell() / file_size * 100)` divides by the parsed content-length:
`file_size == 0` raises ZeroDivisionError. -/

/-- Outcome of the chunk loop: all chunks consumed (with the bytes written),
or the function returned because the cancel flag was observed. -/
inductive CkOut where
  | done (bytes : Nat)
  | stop
deriving DecidableEq

def chunkLoop (env : Env) (bf : Bool) (fsize : Nat) :
    List Nat → Nat → St → Res CkOut × St
  | [], bytes, s =>
      -- end of body; when the transport fails mid-body, iter_content raises
      if bf then (Res.exn PyErr.reqExc, s) else (Res.ok (CkOut.done bytes), s)
  | c :: rest, bytes, s =>
    if c = 0 then
      match readCancel env s with
      | (true, s1) => (Res.ok CkOut.stop, emit Ev.canceled s1)
      | (false, s1) => chunkLoop env bf fsize rest bytes s1
    else
      let s1 := emit (Ev.fileWrite c) s
      if fsize = 0 then (Res.exn PyErr.zeroDiv, s1)
      else
        let s2 := emit (Ev.fileProgress ((bytes + c) * 100 / fsize)) s1
        match readCancel env s2 with
        | (true, s3) => (Res.ok CkOut.stop, emit Ev.canceled s3)
        | (false, s3) => chunkLoop env bf fsize rest (bytes + c) s3

/-! ## test.py's download_file (namespace T1, test.py lines 85-157)

The stream open is `requests.get(url, stream=True)`: no headers, no auth,
automatic redirect following (the observed response is post-redirect), only
`status_code == 200` is treated as success. -/

namespace T1

/-- The success tail of test.py's download_file (lines 122-149): counter
updates, the two time-remaining estimates, the *unguarded* overall-progress
percentage, log line, and the ledger append. -/
def postOk (fsize bytes : Nat) (file_path : String) (s : St) : Res Unit × St :=
  let s1 : St := { s with downloaded_files := s.downloaded_files + 1
                          total_size := s.total_size + fsize }
  -- time remaining for the current file divides by os.path.getsize(file_path),
  -- which is the number of bytes just written
  if fsize > 0 ∧ bytes = 0 then (Res.exn PyErr.zeroDiv, s1)
  else
    let s2 := if fsize > 0 then emit Ev.timeRemaining s1 else s1
    -- overall_progress = int(self.downloaded_files / self.total_files * 100)
    if s2.total_files = 0 then (Res.exn PyErr.zeroDiv, s2)
    else
      let s3 := emit (Ev.overallProgress (s2.downloaded_files * 100 / s2.total_files)) s2
      let s4 := emit (Ev.logLine LogK.downloadedMsg) s3
      let s5 : St := { s4 with
        ledger := s4.ledger ++ [file_path]
        completed_files := if file_path ∈ s4.completed_files then s4.completed_files
                           else s4.completed_files ++ [file_path] }
      (Res.ok (), emit Ev.timeRemaining s5)

/-- The `while True` retry loop of test.py's download_file (lines 99-157). -/
def dfLoop (env : Env) : Nat → String → String → St → Res Unit × St
  | 0, _, _, s => (Res.div, s)
  | fuel+1, url, file_path, s =>
    match readCancel env s with
    | (true, s1) => (Res.ok (), emit Ev.canceled s1)
    | (false, s1) =>
      match streamGet env url false false s1 with
      | (Res.exn _, s2) =>
        -- except requests.RequestException: log, message box, sleep, retry
        let s3 := emit (Ev.sleep 60) (emit Ev.msgBox (emit (Ev.logLine LogK.netIssue) s2))
        dfLoop env fuel url file_path s3
      | (Res.div, s2) => (Res.div, s2)
      | (Res.ok r, s2) =>
        if r.status = 200 then
          match chunkLoop env r.bodyFail r.contentLength r.chunks 0 s2 with
          | (Res.ok (CkOut.done bytes), s3) => postOk r.contentLength bytes file_path s3
          | (Res.ok CkOut.stop, s3) => (Res.ok (), s3)
          | (Res.exn PyErr.reqExc, s3) =>
            let s4 := emit (Ev.sleep 60) (emit Ev.msgBox (emit (Ev.logLine LogK.netIssue) s3))
            dfLoop env fuel url file_path s4
          | (Res.exn e, s3) => (Res.exn e, s3)
          | (Res.div, s3) => (Res.div, s3)
        else
          -- non-200: log, record in pending_files, break (no retry)
          let s3 := emit (Ev.logLine LogK.failedDownload) s2
          (Res.ok (), { s3 with pending_files := s3.pending_files ++ [url] })

def download_file (env : Env) (fuel : Nat) (url dest_folder : String) (s : St) :
    Res Unit × St :=
  match readCancel env s with
  | (true, s1) => (Res.ok (), emit Ev.canceled s1)
  | (false, s1) =>
    let file_path := pjoin dest_folder (afterLastSlash url)
    if file_path ∈ s1.completed_files then
      (Res.ok (), emit (Ev.logLine LogK.skipMsg) s1)
    else dfLoop env fuel url file_path s1

end T1

/-! ## The listing walk shared shape (test.py 174-189, test-3.py 179-194)

```
for link in links:
    href = link.get('href')
    if href in ('../', './'):
        continue
    full_url = url + href
    new_dest_folder = os.path.join(dest_folder, href)
    if href.endswith('/'):
        if not os.path.exists(new_dest_folder):
            os.makedirs(new_dest_folder)
        self.log_signal.emit(...); self.download_directory(full_url, new_dest_folder)
    else:
        self.log_signal.emit(...); self.download_file(full_url, dest_folder)
```
`ddLinks` is parameterised by the recursive calls of the enclosing variant. -/

def ddLinks (recD : String → String → St → Res Unit × St)
    (recF : String → String → St → Res Unit × St) (url dest : String) :
    List (Option String) → St → Res Unit × St
  | [], s => (Res.ok (), s)
  | none :: _, s => (Res.exn PyErr.typeErr, s)  -- full_url = url + None
  | some h :: rest, s =>
    if h = "../" ∨ h = "./" then ddLinks recD recF url dest rest s
    else
      let full_url := url ++ h
      let new_dest := pjoin dest h
      if endsWithSlash h then
        let s1 := if new_dest ∈ s.dirs then s else { s with dirs := s.dirs ++ [new_dest] }
        let s2 := emit (Ev.logLine LogK.enteringDir) s1
        match recD full_url new_dest s2 with
        | (Res.ok _, s3) => ddLinks recD recF url dest rest s3
        | r => r
      else
        let s1 := emit (Ev.logLine LogK.downloadingFile) s
        match recF full_url dest s1 with
        | (Res.ok _, s2) => ddLinks recD recF url dest rest s2
        | r => r

namespace T1

/-- test.py's download_directory (lines 159-194): a `while True` loop that
checks the cancel flag, fetches the listing, walks the links, and on
`RequestException` logs, shows the message box, sleeps and retries. -/
def download_directory (env : Env) : Nat → String → String → St → Res Unit × St
  | 0, _, _, s => (Res.div, s)
  | fuel+1, url, dest, s =>
    match readCancel env s with
    | (true, s1) => (Res.ok (), emit Ev.canceled s1)
    | (false, s1) =>
      match listingGet env url false s1 with
      | (Res.exn _, s2) =>
        let s3 := emit (Ev.sleep 60) (emit Ev.msgBox (emit (Ev.logLine LogK.netIssue) s2))
        download_directory env fuel url dest s3
      | (Res.div, s2) => (Res.div, s2)
      | (Res.ok (status, anchors), s2) =>
        if status = 200 then
          match ddLinks (fun u d t => download_directory env fuel u d t)
              (fun u d t => download_file env fuel u d t) url dest anchors s2 with
          | (Res.exn PyErr.reqExc, s3) =>
            let s4 := emit (Ev.sleep 60) (emit Ev.msgBox (emit (Ev.logLine LogK.netIssue) s3))
            download_directory env fuel url dest s4
          | r => r
        else (Res.ok (), emit (Ev.logLine LogK.failedAccess) s2)

/-- The body of test.py's run (lines 50-52): count, emit the total, crawl. -/
def runBody (env : Env) (fuel : Nat) (base_url dest_folder : String) (s : St) :
    Res Unit × St :=
  match count_files env fuel base_url s with
  | (Res.ok n, s1) =>
    let s2 := emit (Ev.fileCount n) { s1 with total_files := n }
    download_directory env fuel base_url dest_folder s2
  | (Res.exn e, s1) => (Res.exn e, s1)
  | (Res.div, s1) => (Res.div, s1)

/-- test.py's run (lines 48-56): count, emit the total, crawl, and emit the
completion event only when the cancel flag reads unset; any exception is
caught and logged. -/
def run (env : Env) (fuel : Nat) (base_url dest_folder : String) (s : St) :
    Res Unit × St :=
  match runBody env fuel base_url dest_folder s with
  | (Res.ok _, s1) =>
    match readCancel env s1 with
    | (true, s2) => (Res.ok (), s2)
    | (false, s2) => (Res.ok (), emit Ev.complete s2)
  | (Res.exn _, s1) => (Res.ok (), emit (Ev.logLine LogK.errorOccurred) s1)
  | (Res.div, s1) => (Res.div, s1)

end T1

/-! ## test-3.py's download_file (namespace T3, test-3.py lines 89-162)

The stream open carries the fixed User-Agent header and optional basic auth,
with `allow_redirects=False`; a 302 is handled manually: the `Location`
header replaces the working URL and the loop continues. -/

namespace T3

/-- The success tail of test-3.py's download_file (lines 138-155): the
current-file time estimate, counters, the *guarded* overall-progress
percentage, log line, ledger append. -/
def postOk (fsize bytes : Nat) (file_path : String) (s : St) : Res Unit × St :=
  if fsize > 0 ∧ bytes = 0 then (Res.exn PyErr.zeroDiv, s)
  else
    let s1 := if fsize > 0 then emit Ev.timeRemaining s else s
    let s2 : St := { s1 with downloaded_files := s1.downloaded_files + 1
                             total_size := s1.total_size + fsize }
    let s3 := emit (Ev.overallProgress
      (if s2.total_files > 0 then s2.downloaded_files * 100 / s2.total_files else 100)) s2
    let s4 := emit (Ev.logLine LogK.downloadedMsg) s3
    let s5 : St := { s4 with
      ledger := s4.ledger ++ [file_path]
      completed_files := if file_path ∈ s4.completed_files then s4.completed_files
                         else s4.completed_files ++ [file_path] }
    (Res.ok (), s5)

/-- The `while True` retry/redirect loop of test-3.py's download_file
(lines 107-162).  `url` is the working URL, replaced by a redirect. -/
def dfLoop (env : Env) (auth : Bool) : Nat → String → String → St → Res Unit × St
  | 0, _, _, s => (Res.div, s)
  | fuel+1, url, file_path, s =>
    match readCancel env s with
    | (true, s1) => (Res.ok (), emit Ev.canceled s1)
    | (false, s1) =>
      match streamGet env url true auth s1 with
      | (Res.exn _, s2) =>
        let s3 := emit (Ev.sleep 60) (emit (Ev.logLine LogK.netIssue) s2)
        dfLoop env auth fuel url file_path s3
      | (Res.div, s2) => (Res.div, s2)
      | (Res.ok r, s2) =>
        if r.status = 302 then
          match r.location with
          | none => (Res.exn PyErr.keyErr, s2)  -- response.headers['Location']
          | some l =>
            dfLoop env auth fuel l file_path (emit (Ev.logLine LogK.redirectMsg) s2)
        else if r.status = 200 then
          match chunkLoop env r.bodyFail r.contentLength r.chunks 0 s2 with
          | (Res.ok (CkOut.done bytes), s3) => postOk r.contentLength bytes file_path s3
          | (Res.ok CkOut.stop, s3) => (Res.ok (), s3)
          | (Res.exn PyErr.reqExc, s3) =>
            let s4 := emit (Ev.sleep 60) (emit (Ev.logLine LogK.netIssue) s3)
            dfLoop env auth fuel url file_path s4
          | (Res.exn e, s3) => (Res.exn e, s3)
          | (Res.div, s3) => (Res.div, s3)
        else
          let s3 := emit (Ev.logLine LogK.failedDownload) s2
          (Res.ok (), { s3 with pending_files := s3.pending_files ++ [url] })

def download_file (env : Env) (fuel : Nat) (url dest_folder username password : String)
    (s : St) : Res Unit × St :=
  match readCancel env s with
  | (true, s1) => (Res.ok (), emit Ev.canceled s1)
  | (false, s1) =>
    let file_path := pjoin dest_folder (afterLastSlash url)
    if file_path ∈ s1.completed_files then
      (Res.ok (), emit (Ev.logLine LogK.skipMsg) s1)
    else
      -- auth = (username, password) if username and password else None
      dfLoop env ((username != "") && (password != "")) fuel url file_path s1

/-- test-3.py's download_directory (lines 164-198): as test.py's but with no
message box, and delegating to test-3's download_file. -/
def download_directory (env : Env) (username password : String) :
    Nat → String → String → St → Res Unit × St
  | 0, _, _, s => (Res.div, s)
  | fuel+1, url, dest, s =>
    match readCancel env s with
    | (true, s1) => (Res.ok (), emit Ev.canceled s1)
    | (false, s1) =>
      match listingGet env url false s1 with
      | (Res.exn _, s2) =>
        let s3 := emit (Ev.sleep 60) (emit (Ev.logLine LogK.netIssue) s2)
        download_directory env username password fuel url dest s3
      | (Res.div, s2) => (Res.div, s2)
      | (Res.ok (status, anchors), s2) =>
        if status = 200 then
          match ddLinks (fun u d t => download_directory env username password fuel u d t)
              (fun u d t => download_file env fuel u d username password t) url dest anchors s2 with
          | (Res.exn PyErr.reqExc, s3) =>
            let s4 := emit (Ev.sleep 60) (emit (Ev.logLine LogK.netIssue) s3)
            download_directory env username password fuel url dest s4
          | r => r
        else (Res.ok (), emit (Ev.logLine LogK.failedAccess) s2)

/-- test-3.py's run (lines 49-60): single-file mode calls download_file
directly; directory mode counts, emits the total and crawls; the completion
event is emitted only when the cancel flag reads unset. -/
def runBody (env : Env) (fuel : Nat) (is_single_file : Bool)
    (base_url dest_folder username password : String) (s : St) : Res Unit × St :=
  if is_single_file then download_file env fuel base_url dest_folder username password s
  else
    match count_files env fuel base_url s with
    | (Res.ok n, s1) =>
      let s2 := emit (Ev.fileCount n) { s1 with total_files := n }
      download_directory env username password fuel base_url dest_folder s2
    | (Res.exn e, s1) => (Res.exn e, s1)
    | (Res.div, s1) => (Res.div, s1)

def run (env : Env) (fuel : Nat) (is_single_file : Bool)
    (base_url dest_folder username password : String) (s : St) : Res Unit × St :=
  match runBody env fuel is_single_file base_url dest_folder username password s with
  | (Res.ok _, s1) =>
    match readCancel env s1 with
    | (true, s2) => (Res.ok (), s2)
    | (false, s2) => (Res.ok (), emit Ev.complete s2)
  | (Res.exn _, s1) => (Res.ok (), emit (Ev.logLine LogK.errorOccurred) s1)
  | (Res.div, s1) => (Res.div, s1)

end T3

/-! ## Concrete network oracles used in the claim-level evaluations -/

/-- A 200 response whose `content-length` header is missing (parsed as 0)
but whose body yields one non-empty 7-byte chunk. -/
def envC1x : Env :=
  { listing := fun _ _ => ListingResp.netErr
    stream := fun _ _ => StreamResp.ok ⟨200, none, 0, [7], false⟩
    cancel := fun _ => false }

/-- The root listing fetch fails with a transport error on the first attempt
(during counting) and succeeds on the second (during the crawl), listing one
file; the file itself downloads fine. -/
def envC2x : Env :=
  { listing := fun u a =>
      if u = "r/" then
        (if a = 0 then ListingResp.netErr else ListingResp.ok 200 [some "a.txt"])
      else ListingResp.netErr
    stream := fun u _ =>
      if u = "r/a.txt" then StreamResp.ok ⟨200, none, 5, [5], false⟩
      else StreamResp.netErr
    cancel := fun _ => false }

/-- A run in which cancel is never issued and the single file's 200 response
carries no content-length but a non-empty body chunk. -/
def envC4x : Env :=
  { listing := fun u _ =>
      if u = "r/" then ListingResp.ok 200 [some "a.txt"] else ListingResp.netErr
    stream := fun _ _ => StreamResp.ok ⟨200, none, 0, [3], false⟩
    cancel := fun _ => false }

/-- A listing page containing one anchor element with no href attribute. -/
def envC8x : Env :=
  { listing := fun _ _ => ListingResp.ok 200 [none]
    stream := fun _ _ => StreamResp.netErr
    cancel := fun _ => false }

/-- An empty directory listing, reachable with status 200. -/
def envC9x : Env :=
  { listing := fun u _ =>
      if u = "r/" then ListingResp.ok 200 [] else ListingResp.netErr
    stream := fun _ _ => StreamResp.netErr
    cancel := fun _ => false }

/-- Listings whose single anchor is an absolute URL (`b/`) or a plain
subdirectory (`a/`): used to observe which child URL the code requests. -/
def envC10x : Env :=
  { listing := fun u _ =>
      if u = "a/" then ListingResp.ok 200 [some "sub/"]
      else if u = "b/" then ListingResp.ok 200 [some "http://x/f"]
      else ListingResp.ok 200 []
    stream := fun _ _ => StreamResp.ok
      { status := 200, location := none, contentLength := 1,
        chunks := [1], bodyFail := false }
    cancel := fun _ => false }

/-! ## Lemmas about count_files -/

/-- Stable listings: the response to a listing fetch does not depend on the
per-URL attempt number (the remote tree does not change during the run). -/
def LStable (env : Env) : Prop := ∀ u a, env.listing u a = env.listing u 0

/-- count_files never ends in an (uncaught) RequestException: its own
`except requests.RequestException` swallows every transport error. -/
theorem count_no_reqExc (env : Env) :
    ∀ fuel url s, (count_files env fuel url s).1 ≠ Res.exn PyErr.reqExc := by
  intro fuel
  induction fuel with
  | zero => intro url s; simp [count_files]
  | succ fuel ih =>
    intro url s
    have hlinks : ∀ (anchors : List (Option String)) url acc s,
        (countLinks url (fun u t => count_files env fuel u t) anchors acc s).1 ≠
          Res.exn PyErr.reqExc := by
      intro anchors
      induction anchors with
      | nil => intro url acc s; simp [countLinks]
      | cons a rest ihr =>
        intro url acc s
        match a with
        | none => simp [countLinks]
        | some h =>
          simp only [countLinks]
          split
          · exact ihr url acc s
          · split
            · rcases hc : count_files env fuel (url ++ h) s with ⟨rs, ss⟩
              match rs with
              | Res.ok n => exact ihr url (acc + n) ss
              | Res.exn PyErr.reqExc => simp
              | Res.exn PyErr.zeroDiv => simp
              | Res.exn PyErr.typeErr => simp
              | Res.exn PyErr.keyErr => simp
              | Res.div => simp
            · exact ihr url (acc + 1) s
    simp only [count_files, listingGet]
    rcases env.listing url (s.listA url) with _ | _
    · simp only []
      split
      · exact hlinks _ url 0 _
      · simp
    · simp

/-- Under stable listings the value of count_files does not depend on the
state it is run in (it reads only the per-URL attempt counters, which a
stable oracle ignores). -/
theorem count_val_indep (env : Env) (hst : LStable env) :
    ∀ fuel url s t, (count_files env fuel url s).1 = (count_files env fuel url t).1 := by
  intro fuel
  induction fuel with
  | zero => intro url s t; rfl
  | succ fuel ih =>
    intro url s t
    have hlinks : ∀ (anchors : List (Option String)) url acc s t,
        (countLinks url (fun u t' => count_files env fuel u t') anchors acc s).1 =
          (countLinks url (fun u t' => count_files env fuel u t') anchors acc t).1 := by
      intro anchors
      induction anchors with
      | nil => intro url acc s t; rfl
      | cons a rest ihr =>
        intro url acc s t
        match a with
        | none => rfl
        | some h =>
          simp only [countLinks]
          split
          · exact ihr url acc s t
          · split
            · have hval := ih (url ++ h) s t
              rcases hcs : count_files env fuel (url ++ h) s with ⟨rs, ss⟩
              rcases hct : count_files env fuel (url ++ h) t with ⟨rt, st⟩
              rw [hcs, hct] at hval
              simp only [] at hval
              subst hval
              match rs with
              | Res.ok n => exact ihr url (acc + n) ss st
              | Res.exn PyErr.reqExc => rfl
              | Res.exn PyErr.zeroDiv => rfl
              | Res.exn PyErr.typeErr => rfl
              | Res.exn PyErr.keyErr => rfl
              | Res.div => rfl
            · exact ihr url (acc + 1) s t
    simp only [count_files, listingGet]
    rw [hst url (s.listA url), hst url (t.listA url)]
    rcases env.listing url 0 with _ | _
    · simp only []
      split
      · exact hlinks _ url 0 _ _
      · rfl
    · rfl

/-- Error-propagating addition on count results. -/
def resAdd (n : Nat) : Res Nat → Res Nat
  | Res.ok m => Res.ok (n + m)
  | Res.exn e => Res.exn e
  | Res.div => Res.div

/-- Error-propagating left-to-right sum of count results. -/
def resSum : List (Res Nat) → Res Nat
  | [] => Res.ok 0
  | Res.ok n :: rest => resAdd n (resSum rest)
  | Res.exn e :: _ => Res.exn e
  | Res.div :: _ => Res.div

/-- The file anchors of a listing (href present, not `../` or `./`, not
ending in `/`). -/
def fileAnchors (hrefs : List String) : List String :=
  hrefs.filter (fun h => !(h == "../" || h == "./") && !endsWithSlash h)

/-- The subdirectory anchors of a listing (href present, not `../` or `./`,
ending in `/`). -/
def dirAnchors (hrefs : List String) : List String :=
  hrefs.filter (fun h => !(h == "../" || h == "./") && endsWithSlash h)

theorem resAdd_resAdd (a b : Nat) (r : Res Nat) :
    resAdd a (resAdd b r) = resAdd (a + b) r := by
  cases r <;> simp [resAdd, Nat.add_assoc]

/-- The listing walk of count_files computes the error-propagating sum:
accumulator, plus one per file anchor, plus the recursive counts of the
subdirectory anchors (each taken at the reference state `s0`, which is
legitimate under stable listings). -/
theorem countLinks_resSum (env : Env) (hst : LStable env) (fuel : Nat) (url : String)
    (s0 : St) :
    ∀ (hrefs : List String) (acc : Nat) (s : St),
      (countLinks url (fun u t => count_files env fuel u t) (hrefs.map some) acc s).1 =
        resAdd (acc + (fileAnchors hrefs).length)
          (resSum ((dirAnchors hrefs).map (fun h => (count_files env fuel (url ++ h) s0).1))) := by
  intro hrefs
  induction hrefs with
  | nil =>
    intro acc s
    simp [countLinks, fileAnchors, dirAnchors, resSum, resAdd]
  | cons h rest ihr =>
    intro acc s
    have hfa : fileAnchors (h :: rest) =
        if !(h == "../" || h == "./") && !endsWithSlash h then h :: fileAnchors rest
        else fileAnchors rest := by
      simp [fileAnchors, List.filter_cons]
    have hda : dirAnchors (h :: rest) =
        if !(h == "../" || h == "./") && endsWithSlash h then h :: dirAnchors rest
        else dirAnchors rest := by
      simp [dirAnchors, List.filter_cons]
    simp only [List.map_cons, countLinks]
    by_cases hnav : h = "../" ∨ h = "./"
    · have hb : (h == "../" || h == "./") = true := by
        rcases hnav with h1 | h1 <;> simp [h1]
      rw [if_pos hnav]
      rw [ihr acc s, hfa, hda]
      simp [hb]
    · have hb : (h == "../" || h == "./") = false := by
        push_neg at hnav
        simp [hnav.1, hnav.2]
      rw [if_neg hnav]
      by_cases hd : endsWithSlash h = true
      · simp only [hd, if_true]
        rw [hfa, hda]
        simp only [hb, hd, Bool.not_false, Bool.not_true, Bool.and_false, Bool.and_true,
          if_false, if_true, List.map_cons]
        have hval := count_val_indep env hst fuel (url ++ h) s s0
        rcases hcs : count_files env fuel (url ++ h) s with ⟨rs, ss⟩
        rcases hc0 : count_files env fuel (url ++ h) s0 with ⟨r0, s0x⟩
        rw [hcs, hc0] at hval
        simp only [] at hval
        subst hval
        match rs with
        | Res.ok n =>
          rw [ihr (acc + n) ss]
          simp [resSum, resAdd_resAdd, Nat.add_assoc, Nat.add_comm n]
        | Res.exn PyErr.reqExc =>
          exact absurd (by rw [hc0]) (count_no_reqExc env fuel (url ++ h) s0)
        | Res.exn PyErr.zeroDiv => simp [resSum, resAdd]
        | Res.exn PyErr.typeErr => simp [resSum, resAdd]
        | Res.exn PyErr.keyErr => simp [resSum, resAdd]
        | Res.div => simp [resSum, resAdd]
      · rw [if_neg hd, ihr (acc + 1) s, hfa, hda]
        have hd' : endsWithSlash h = false := by simpa using hd
        simp [hb, hd', Nat.add_assoc, Nat.add_comm 1]

/-- A stable two-level tree: the root lists a file, a subdirectory and the
parent link; the subdirectory lists one file. -/
def envC3x : Env :=
  { listing := fun u _ =>
      if u = "r/" then ListingResp.ok 200 [some "a.txt", some "s/", some "../"]
      else if u = "r/s/" then ListingResp.ok 200 [some "b.txt"]
      else ListingResp.netErr
    stream := fun _ _ => StreamResp.netErr
    cancel := fun _ => false }

/-- C3: under stable listings, count(url) on a listing of anchors (all with
hrefs) equals the number of file anchors plus the error-propagating sum of
the recursive counts of the subdirectory anchors, `../`/`./` excluded; a
non-200 listing response or a transport error makes the subtree count 0. -/
theorem c3_count_recursive_sum (env : Env) (hst : LStable env) (fuel : Nat)
    (url : String) (s : St) :
    (∀ hrefs, env.listing url 0 = ListingResp.ok 200 (hrefs.map some) →
      (count_files env (fuel + 1) url s).1 =
        resAdd (fileAnchors hrefs).length
          (resSum ((dirAnchors hrefs).map (fun h => (count_files env fuel (url ++ h) s).1)))) ∧
    (∀ status anchors, env.listing url 0 = ListingResp.ok status anchors → status ≠ 200 →
      (count_files env (fuel + 1) url s).1 = Res.ok 0) ∧
    (env.listing url 0 = ListingResp.netErr →
      (count_files env (fuel + 1) url s).1 = Res.ok 0) := by
  refine ⟨?_, ?_, ?_⟩
  · intro hrefs hresp
    simp only [count_files, listingGet]
    rw [hst url (s.listA url), hresp]
    simp [countLinks_resSum env hst fuel url s hrefs 0]
  · intro status anchors hresp hne
    simp only [count_files, listingGet]
    rw [hst url (s.listA url), hresp]
    simp [hne]
  · intro hresp
    simp only [count_files, listingGet]
    rw [hst url (s.listA url), hresp]

/-- Witness for C3 on the concrete two-level tree. -/
theorem c3_witness :
    (count_files envC3x 3 "r/" (initSt [])).1 =
      resAdd (fileAnchors ["a.txt", "s/", "../"]).length
        (resSum ((dirAnchors ["a.txt", "s/", "../"]).map
          (fun h => (count_files envC3x 2 ("r/" ++ h) (initSt [])).1))) :=
  (c3_count_recursive_sum envC3x (fun _ _ => rfl) 2 "r/" (initSt [])).1
    ["a.txt", "s/", "../"] rfl

/-! ## Event-trace extractors (for the retry/redirect claims) -/

/-- The durations of the `time.sleep` calls in a trace, in order. -/
def sleeps : List Ev → List Nat
  | [] => []
  | Ev.sleep n :: r => n :: sleeps r
  | Ev.fileProgress _ :: r => sleeps r
  | Ev.overallProgress _ :: r => sleeps r
  | Ev.logLine _ :: r => sleeps r
  | Ev.complete :: r => sleeps r
  | Ev.canceled :: r => sleeps r
  | Ev.fileCount _ :: r => sleeps r
  | Ev.timeRemaining :: r => sleeps r
  | Ev.msgBox :: r => sleeps r
  | Ev.reqListing _ _ :: r => sleeps r
  | Ev.reqStream _ _ _ :: r => sleeps r
  | Ev.fileWrite _ :: r => sleeps r

/-- The URLs of the stream-open requests in a trace, in order. -/
def streamReqs : List Ev → List String
  | [] => []
  | Ev.reqStream u _ _ :: r => u :: streamReqs r
  | Ev.fileProgress _ :: r => streamReqs r
  | Ev.overallProgress _ :: r => streamReqs r
  | Ev.logLine _ :: r => streamReqs r
  | Ev.complete :: r => streamReqs r
  | Ev.canceled :: r => streamReqs r
  | Ev.fileCount _ :: r => streamReqs r
  | Ev.timeRemaining :: r => streamReqs r
  | Ev.sleep _ :: r => streamReqs r
  | Ev.msgBox :: r => streamReqs r
  | Ev.reqListing _ _ :: r => streamReqs r
  | Ev.fileWrite _ :: r => streamReqs r

theorem sleeps_append : ∀ l1 l2 : List Ev, sleeps (l1 ++ l2) = sleeps l1 ++ sleeps l2 := by
  intro l1 l2
  induction l1 with
  | nil => rfl
  | cons e r ih => cases e <;> simp [sleeps, ih]

theorem streamReqs_append : ∀ l1 l2 : List Ev,
    streamReqs (l1 ++ l2) = streamReqs l1 ++ streamReqs l2 := by
  intro l1 l2
  induction l1 with
  | nil => rfl
  | cons e r ih => cases e <;> simp [streamReqs, ih]

/-- The chunk loop issues no request and sleeps never, and (without a
mid-body transport failure) cannot end in a RequestException or diverge. -/
theorem chunkLoop_quiet (env : Env) (bf : Bool) (fsize : Nat) :
    ∀ chunks bytes s,
      streamReqs ((chunkLoop env bf fsize chunks bytes s).2.events) = streamReqs s.events ∧
      sleeps ((chunkLoop env bf fsize chunks bytes s).2.events) = sleeps s.events ∧
      (chunkLoop env bf fsize chunks bytes s).1 ≠ Res.div ∧
      (bf = false → (chunkLoop env bf fsize chunks bytes s).1 ≠ Res.exn PyErr.reqExc) := by
  intro chunks
  induction chunks with
  | nil =>
    intro bytes s
    cases bf <;> simp [chunkLoop]
  | cons c rest ih =>
    intro bytes s
    simp only [chunkLoop]
    by_cases hc : c = 0
    · simp only [hc, if_pos rfl, readCancel]
      cases hcan : env.cancel s.flagI
      · simpa using ih bytes { s with flagI := s.flagI + 1 }
      · simp [emit, streamReqs_append, sleeps_append, streamReqs, sleeps]
    · rw [if_neg hc]
      by_cases hf : fsize = 0
      · simp [hf, emit, streamReqs_append, sleeps_append, streamReqs, sleeps]
      · rw [if_neg hf]
        simp only [readCancel]
        cases hcan : env.cancel (emit (Ev.fileProgress ((bytes + c) * 100 / fsize))
            (emit (Ev.fileWrite c) s)).flagI
        · have := ih (bytes + c)
            { (emit (Ev.fileProgress ((bytes + c) * 100 / fsize)) (emit (Ev.fileWrite c) s)) with
              flagI := (emit (Ev.fileProgress ((bytes + c) * 100 / fsize))
                (emit (Ev.fileWrite c) s)).flagI + 1 }
          simpa [emit, streamReqs_append, sleeps_append, streamReqs, sleeps] using this
        · simp [emit, streamReqs_append, sleeps_append, streamReqs, sleeps]

/-- Equation form of `chunkLoop_quiet`. -/
theorem chunkLoop_quiet_eq (env : Env) (bf : Bool) (fsize : Nat)
    (chunks : List Nat) (bytes : Nat) (s : St) (cr : Res CkOut) (cs : St)
    (h : chunkLoop env bf fsize chunks bytes s = (cr, cs)) :
    streamReqs cs.events = streamReqs s.events ∧ sleeps cs.events = sleeps s.events ∧
    cr ≠ Res.div ∧ (bf = false → cr ≠ Res.exn PyErr.reqExc) := by
  have := chunkLoop_quiet env bf fsize chunks bytes s
  rw [h] at this
  simpa using this

/-- The success tail of test-3's download_file issues no request and never
sleeps. -/
theorem postOk3_quiet_eq (fsize bytes : Nat) (fp : String) (s : St) (r : Res Unit)
    (s' : St) (h : T3.postOk fsize bytes fp s = (r, s')) :
    streamReqs s'.events = streamReqs s.events ∧ sleeps s'.events = sleeps s.events := by
  have hq : streamReqs ((T3.postOk fsize bytes fp s).2).events = streamReqs s.events ∧
      sleeps ((T3.postOk fsize bytes fp s).2).events = sleeps s.events := by
    simp only [T3.postOk]
    by_cases h1 : fsize > 0 ∧ bytes = 0
    · simp [h1]
    · rw [if_neg h1]
      by_cases h2 : fsize > 0 <;>
        simp [h2, emit, streamReqs_append, sleeps_append, streamReqs, sleeps]
  rw [h] at hq
  exact hq

/-- C6 core: in test-3's download_file retry loop on the working URL `L`,
`k` consecutive transport errors followed by a success produce exactly `k`
sleeps of 60 and `k + 1` stream opens of `L`, in order. -/
theorem dfLoop3_retry (env : Env) (auth : Bool) (L fp : String)
    (hcan : ∀ i, env.cancel i = false) (rOk : StreamOk)
    (h200 : rOk.status = 200) (hbf : rOk.bodyFail = false) :
    ∀ (k fuel : Nat) (s : St),
      (∀ i, i < k → env.stream L (s.streamA L + i) = StreamResp.netErr) →
      env.stream L (s.streamA L + k) = StreamResp.ok rOk →
      k < fuel →
      streamReqs ((T3.dfLoop env auth fuel L fp s).2.events) =
        streamReqs s.events ++ List.replicate (k + 1) L ∧
      sleeps ((T3.dfLoop env auth fuel L fp s).2.events) =
        sleeps s.events ++ List.replicate k 60 := by
  intro k
  induction k with
  | zero =>
    intro fuel s hfail hok hfuel
    cases fuel with
    | zero => omega
    | succ f =>
      rw [Nat.add_zero] at hok
      simp only [T3.dfLoop, readCancel, hcan, streamGet]
      simp only [hok]
      simp only [h200]
      norm_num
      split
      next bytes s3 heq =>
        rcases chunkLoop_quiet_eq _ _ _ _ _ _ _ _ heq with ⟨q1, q2, _, _⟩
        rcases hpost : T3.postOk rOk.contentLength bytes fp s3 with ⟨r4, s4⟩
        rcases postOk3_quiet_eq _ _ _ _ _ _ hpost with ⟨p1, p2⟩
        simp only [] at q1 q2
        simp [p1, p2, q1, q2, streamReqs_append, sleeps_append, streamReqs, sleeps]
      next s3 heq =>
        rcases chunkLoop_quiet_eq _ _ _ _ _ _ _ _ heq with ⟨q1, q2, _, _⟩
        simp only [] at q1 q2
        simp [q1, q2, streamReqs_append, sleeps_append, streamReqs, sleeps]
      next s3 heq =>
        rcases chunkLoop_quiet_eq _ _ _ _ _ _ _ _ heq with ⟨_, _, _, q4⟩
        exact absurd rfl (q4 hbf)
      next e s3 hne heq =>
        rcases chunkLoop_quiet_eq _ _ _ _ _ _ _ _ heq with ⟨q1, q2, _, _⟩
        simp only [] at q1 q2
        simp [q1, q2, streamReqs_append, sleeps_append, streamReqs, sleeps]
      next s3 heq =>
        rcases chunkLoop_quiet_eq _ _ _ _ _ _ _ _ heq with ⟨_, _, q3, _⟩
        exact absurd rfl q3
  | succ k ih =>
    intro fuel s hfail hok hfuel
    cases fuel with
    | zero => omega
    | succ f =>
      simp only [T3.dfLoop, readCancel, hcan, streamGet]
      have h0 : env.stream L (s.streamA L) = StreamResp.netErr := by
        simpa using hfail 0 (Nat.succ_pos k)
      simp only [h0]
      refine ⟨?_, ?_⟩
      · refine Eq.trans ((ih f _ ?_ ?_ ?_).1) ?_
        · intro i hi
          have h1 := hfail (i + 1) (by omega)
          convert h1 using 2
          simp [emit]
          omega
        · convert hok using 2
          simp [emit]
          omega
        · omega
        · simp [emit, streamReqs_append, streamReqs, List.replicate_succ]
      · refine Eq.trans ((ih f _ ?_ ?_ ?_).2) ?_
        · intro i hi
          have h1 := hfail (i + 1) (by omega)
          convert h1 using 2
          simp [emit]
          omega
        · convert hok using 2
          simp [emit]
          omega
        · omega
        · simp [emit, sleeps_append, sleeps, List.replicate_succ]

/-- A 302 redirect from "u" to "L", two transport errors on "L", then
success. -/
def envC6x : Env :=
  { listing := fun _ _ => ListingResp.netErr
    stream := fun u a =>
      if u = "u" then StreamResp.ok ⟨302, some "L", 0, [], false⟩
      else if u = "L" then
        (if a < 2 then StreamResp.netErr else StreamResp.ok ⟨200, none, 5, [5], false⟩)
      else StreamResp.netErr
    cancel := fun _ => false }

/-- C6: in test-3's download_file, after a 302 has replaced the working URL
by `L`, each of `k` consecutive transport errors is followed by a sleep of
exactly 60 and a retry of the stream open against `L` (the redirect-updated
URL, not the original), for every `k` — the retry loop has no maximum
count: the trace shows the original open of `url`, then `k + 1` opens of
`L` and exactly `k` sleeps of 60. -/
theorem c6_transport_retry_fixed_delay (env : Env) (fuel k : Nat)
    (url dest username password L : String) (s : St)
    (hcan : ∀ i, env.cancel i = false) (hne : url ≠ L)
    (r302 rOk : StreamOk)
    (hred : env.stream url (s.streamA url) = StreamResp.ok r302)
    (h302 : r302.status = 302) (hloc : r302.location = some L)
    (hfail : ∀ i, i < k → env.stream L (s.streamA L + i) = StreamResp.netErr)
    (hok : env.stream L (s.streamA L + k) = StreamResp.ok rOk)
    (h200 : rOk.status = 200) (hbf : rOk.bodyFail = false)
    (hpath : pjoin dest (afterLastSlash url) ∉ s.completed_files)
    (hfuel : k + 1 < fuel) :
    streamReqs ((T3.download_file env fuel url dest username password s).2.events) =
      streamReqs s.events ++ url :: List.replicate (k + 1) L ∧
    sleeps ((T3.download_file env fuel url dest username password s).2.events) =
      sleeps s.events ++ List.replicate k 60 := by
  cases fuel with
  | zero => omega
  | succ f =>
    simp only [T3.download_file, readCancel, hcan]
    rw [if_neg (by simpa using hpath)]
    simp only [T3.dfLoop, readCancel, hcan, streamGet]
    have hne' : ¬(L = url) := fun hh => hne hh.symm
    simp only [hred]
    simp only [h302, hloc]
    norm_num
    refine ⟨Eq.trans ((dfLoop3_retry env _ L _ hcan rOk h200 hbf k f _ ?_ ?_ ?_).1) ?_,
            Eq.trans ((dfLoop3_retry env _ L _ hcan rOk h200 hbf k f _ ?_ ?_ ?_).2) ?_⟩
    · intro i hi
      have h1 := hfail i hi
      convert h1 using 2
      simp [emit, hne']
    · convert hok using 2
      simp [emit, hne']
    · omega
    · simp [emit, streamReqs_append, streamReqs]
    · intro i hi
      have h1 := hfail i hi
      convert h1 using 2
      simp [emit, hne']
    · convert hok using 2
      simp [emit, hne']
    · omega
    · simp [emit, sleeps_append, sleeps]

/-- Witness for C6 with two consecutive transport errors. -/
theorem c6_witness :
    streamReqs ((T3.download_file envC6x 6 "u" "d" "" "" (initSt [])).2.events) =
      "u" :: List.replicate 3 "L" ∧
    sleeps ((T3.download_file envC6x 6 "u" "d" "" "" (initSt [])).2.events) =
      List.replicate 2 60 := by
  have h := c6_transport_retry_fixed_delay envC6x 6 2 "u" "d" "" "" "L" (initSt [])
    (fun _ => rfl) (by decide) ⟨302, some "L", 0, [], false⟩ ⟨200, none, 5, [5], false⟩
    rfl rfl rfl (by decide) (by decide) rfl rfl (by decide) (by decide)
  simp only [initSt, streamReqs, sleeps, List.nil_append] at h
  exact h

/-- Helper: in test-3's download_file a response whose status is neither 200
nor 302 ends the transfer on the first attempt: one request, a failure log
line, the URL appended to pending_files, and no other state change. -/
theorem df3_fail_perm (env : Env) (fuel : Nat) (url dest username password : String)
    (s : St) (r : StreamOk)
    (hc0 : env.cancel s.flagI = false) (hc1 : env.cancel (s.flagI + 1) = false)
    (hpath : pjoin dest (afterLastSlash url) ∉ s.completed_files)
    (hresp : env.stream url (s.streamA url) = StreamResp.ok r)
    (h200 : r.status ≠ 200) (h302 : r.status ≠ 302) :
    (T3.download_file env (fuel + 1) url dest username password s).1 = Res.ok () ∧
    (T3.download_file env (fuel + 1) url dest username password s).2.events =
      s.events ++ [Ev.reqStream url true ((username != "") && (password != "")),
        Ev.logLine LogK.failedDownload] ∧
    (T3.download_file env (fuel + 1) url dest username password s).2.pending_files =
      s.pending_files ++ [url] ∧
    (T3.download_file env (fuel + 1) url dest username password s).2.ledger = s.ledger ∧
    (T3.download_file env (fuel + 1) url dest username password s).2.completed_files =
      s.completed_files ∧
    (T3.download_file env (fuel + 1) url dest username password s).2.downloaded_files =
      s.downloaded_files ∧
    (T3.download_file env (fuel + 1) url dest username password s).2.flagI = s.flagI + 2 := by
  simp only [T3.download_file, readCancel, hc0]
  rw [if_neg (by simpa using hpath)]
  simp only [T3.dfLoop, readCancel]
  norm_num [hc1]
  simp only [streamGet, hresp]
  rw [if_neg h302, if_neg h200]
  simp [emit]

/-- C7: a file fetch returning a status that is neither 200 nor 302 (e.g.
404) is permanent for that attempt and harmless to the run: exactly one
stream request is issued (no retry), a failure log line is emitted, the URL
is appended to pending_files, no bytes are written, the ledger and the
completed set are unchanged — and a run whose only file fetch fails this
way still reaches the completed event. -/
theorem c7_non200_permanent_failure (env : Env) (fuel : Nat)
    (url dest username password : String) (s : St) (r : StreamOk) (led : List String)
    (h200 : r.status ≠ 200) (h302 : r.status ≠ 302) :
    (env.cancel s.flagI = false → env.cancel (s.flagI + 1) = false →
      pjoin dest (afterLastSlash url) ∉ s.completed_files →
      env.stream url (s.streamA url) = StreamResp.ok r →
      (T3.download_file env (fuel + 1) url dest username password s).1 = Res.ok () ∧
      (T3.download_file env (fuel + 1) url dest username password s).2.events =
        s.events ++ [Ev.reqStream url true ((username != "") && (password != "")),
          Ev.logLine LogK.failedDownload] ∧
      (T3.download_file env (fuel + 1) url dest username password s).2.pending_files =
        s.pending_files ++ [url] ∧
      (T3.download_file env (fuel + 1) url dest username password s).2.ledger = s.ledger ∧
      (T3.download_file env (fuel + 1) url dest username password s).2.completed_files =
        s.completed_files) ∧
    ((∀ i, env.cancel i = false) → pjoin dest (afterLastSlash url) ∉ led →
      env.stream url 0 = StreamResp.ok r →
      Ev.complete ∈ (T3.run env (fuel + 1) true url dest username password (initSt led)).2.events ∧
      url ∈ (T3.run env (fuel + 1) true url dest username password (initSt led)).2.pending_files ∧
      (T3.run env (fuel + 1) true url dest username password (initSt led)).2.ledger = led ∧
      Ev.logLine LogK.failedDownload ∈
        (T3.run env (fuel + 1) true url dest username password (initSt led)).2.events ∧
      (∀ b, Ev.fileWrite b ∉
        (T3.run env (fuel + 1) true url dest username password (initSt led)).2.events)) := by
  constructor
  · intro hc0 hc1 hpath hresp
    have h := df3_fail_perm env fuel url dest username password s r hc0 hc1 hpath hresp h200 h302
    exact ⟨h.1, h.2.1, h.2.2.1, h.2.2.2.1, h.2.2.2.2.1⟩
  · intro hcan hpath hresp
    have h := df3_fail_perm env fuel url dest username password (initSt led) r
      (hcan _) (hcan _) (by simpa [initSt] using hpath) (by simpa [initSt] using hresp)
      h200 h302
    rcases hdf : T3.download_file env (fuel + 1) url dest username password (initSt led)
      with ⟨rdf, sdf⟩
    rw [hdf] at h
    simp only [] at h
    rcases h with ⟨hr, hev, hpend, hled, _, _, _⟩
    simp only [T3.run, T3.runBody, if_pos, hdf, hr, readCancel, hcan]
    simp [emit, hev, hpend, hled, initSt]

/-- A file URL that always answers 404. -/
def envC7x : Env :=
  { listing := fun _ _ => ListingResp.netErr
    stream := fun _ _ => StreamResp.ok ⟨404, none, 0, [], false⟩
    cancel := fun _ => false }

/-- Witness for C7: a single-file run against a 404 URL. -/
theorem c7_witness :
    Ev.complete ∈ (T3.run envC7x 5 true "h/f.bin" "d" "u" "p" (initSt [])).2.events ∧
    "h/f.bin" ∈ (T3.run envC7x 5 true "h/f.bin" "d" "u" "p" (initSt [])).2.pending_files ∧
    (T3.run envC7x 5 true "h/f.bin" "d" "u" "p" (initSt [])).2.ledger = [] ∧
    Ev.logLine LogK.failedDownload ∈
      (T3.run envC7x 5 true "h/f.bin" "d" "u" "p" (initSt [])).2.events ∧
    (∀ b, Ev.fileWrite b ∉ (T3.run envC7x 5 true "h/f.bin" "d" "u" "p" (initSt [])).2.events) :=
  (c7_non200_permanent_failure envC7x 4 "h/f.bin" "d" "u" "p" (initSt [])
    ⟨404, none, 0, [], false⟩ [] (by decide) (by decide)).2
    (fun _ => rfl) (by decide) rfl

/-! ## Invariant bundles for the state-machine operations -/

/-- Fields the chunk loop never touches. -/
def ChunkPres (s s' : St) : Prop :=
  s'.downloaded_files = s.downloaded_files ∧ s'.total_files = s.total_files ∧
  s'.total_size = s.total_size ∧ s'.completed_files = s.completed_files ∧
  s'.pending_files = s.pending_files ∧ s'.ledger = s.ledger ∧ s'.dirs = s.dirs ∧
  s'.listA = s.listA ∧ s'.streamA = s.streamA

theorem chunkPres_refl (s : St) : ChunkPres s s := by
  simp [ChunkPres]

theorem chunkPres_trans {s s' s'' : St} (h1 : ChunkPres s s') (h2 : ChunkPres s' s'') :
    ChunkPres s s'' := by
  rcases h1 with ⟨a1, a2, a3, a4, a5, a6, a7, a8, a9⟩
  rcases h2 with ⟨b1, b2, b3, b4, b5, b6, b7, b8, b9⟩
  exact ⟨b1.trans a1, b2.trans a2, b3.trans a3, b4.trans a4, b5.trans a5,
    b6.trans a6, b7.trans a7, b8.trans a8, b9.trans a9⟩

/-- Full behaviour bundle of the chunk loop: it only appends events and
advances the cancel-read counter; the completed signal is never emitted;
the canceled signal is newly emitted only after a true cancel read, and
then the loop result is `stop`. -/
theorem chunkLoop_spec (env : Env) (bf : Bool) (fsize : Nat) :
    ∀ chunks bytes s,
      ChunkPres s (chunkLoop env bf fsize chunks bytes s).2 ∧
      s.flagI ≤ (chunkLoop env bf fsize chunks bytes s).2.flagI ∧
      (∀ e, e ∈ s.events → e ∈ (chunkLoop env bf fsize chunks bytes s).2.events) ∧
      (Ev.complete ∈ (chunkLoop env bf fsize chunks bytes s).2.events →
        Ev.complete ∈ s.events) ∧
      (Ev.canceled ∈ (chunkLoop env bf fsize chunks bytes s).2.events →
        Ev.canceled ∈ s.events ∨
        ((chunkLoop env bf fsize chunks bytes s).1 = Res.ok CkOut.stop ∧
          ∃ i, s.flagI ≤ i ∧ i < (chunkLoop env bf fsize chunks bytes s).2.flagI ∧
            env.cancel i = true)) := by
  intro chunks
  induction chunks with
  | nil =>
    intro bytes s
    cases bf <;> simp [chunkLoop, chunkPres_refl]
  | cons c rest ih =>
    intro bytes s
    simp only [chunkLoop]
    by_cases hc : c = 0
    · simp only [hc, if_pos rfl, readCancel]
      cases hcan : env.cancel s.flagI
      · have h := ih bytes { s with flagI := s.flagI + 1 }
        refine ⟨h.1, ?_, h.2.2.1, h.2.2.2.1, ?_⟩
        · exact le_trans (Nat.le_succ _) h.2.1
        · intro hm
          rcases h.2.2.2.2 hm with h1 | ⟨h1, i, hi1, hi2, hi3⟩
          · exact Or.inl h1
          · exact Or.inr ⟨h1, i, le_trans (Nat.le_succ _) hi1, hi2, hi3⟩
      · refine ⟨by simp [ChunkPres, emit], by simp [emit], ?_, ?_, ?_⟩
        · intro e he; simp [emit, he]
        · intro hm; simpa [emit] using hm
        · intro _
          exact Or.inr ⟨rfl, s.flagI, le_refl _, by simp [emit], hcan⟩
    · rw [if_neg hc]
      by_cases hf : fsize = 0
      · simp only [hf, if_pos rfl]
        refine ⟨by simp [ChunkPres, emit], by simp [emit], ?_, ?_, ?_⟩
        · intro e he; simp [emit, he]
        · intro hm; simpa [emit] using hm
        · intro hm
          left
          simpa [emit] using hm
      · rw [if_neg hf]
        simp only [readCancel]
        cases hcan : env.cancel (emit (Ev.fileProgress ((bytes + c) * 100 / fsize))
            (emit (Ev.fileWrite c) s)).flagI
        · have h := ih (bytes + c)
            { (emit (Ev.fileProgress ((bytes + c) * 100 / fsize)) (emit (Ev.fileWrite c) s)) with
              flagI := (emit (Ev.fileProgress ((bytes + c) * 100 / fsize))
                (emit (Ev.fileWrite c) s)).flagI + 1 }
          simp only [emit] at h hcan ⊢
          refine ⟨chunkPres_trans (by simp [ChunkPres]) h.1, ?_, ?_, ?_, ?_⟩
          · exact le_trans (Nat.le_succ _) h.2.1
          · intro e he
            exact h.2.2.1 e (by simp [he])
          · intro hm
            have := h.2.2.2.1 hm
            simpa using this
          · intro hm
            rcases h.2.2.2.2 hm with h1 | ⟨h1, i, hi1, hi2, hi3⟩
            · left; simpa using h1
            · exact Or.inr ⟨h1, i, le_trans (Nat.le_succ _) hi1, hi2, hi3⟩
        · simp only [emit] at hcan ⊢
          refine ⟨by simp [ChunkPres], by simp, ?_, ?_, ?_⟩
          · intro e he; simp [he]
          · intro hm; simpa using hm
          · intro _
            exact Or.inr ⟨by simp, s.flagI, le_refl _, by simp, hcan⟩

/-- Equation form of `chunkLoop_spec`. -/
theorem chunkLoop_spec_eq (env : Env) (bf : Bool) (fsize : Nat)
    (chunks : List Nat) (bytes : Nat) (s : St) (cr : Res CkOut) (cs : St)
    (h : chunkLoop env bf fsize chunks bytes s = (cr, cs)) :
    ChunkPres s cs ∧ s.flagI ≤ cs.flagI ∧
    (∀ e, e ∈ s.events → e ∈ cs.events) ∧
    (Ev.complete ∈ cs.events → Ev.complete ∈ s.events) ∧
    (Ev.canceled ∈ cs.events → Ev.canceled ∈ s.events ∨
      (cr = Res.ok CkOut.stop ∧ ∃ i, s.flagI ≤ i ∧ i < cs.flagI ∧ env.cancel i = true)) := by
  have h2 := chunkLoop_spec env bf fsize chunks bytes s
  rw [h] at h2
  exact h2

/-- The single-step relation every operation of the engine satisfies:
total_files is untouched (only `run` sets it), the cancel-read counter and
the downloaded counter never decrease, the event trace only grows, the
completed signal is never emitted, and the canceled signal is newly emitted
only after a true cancel-flag read. -/
def StepR (env : Env) (s s' : St) : Prop :=
  s'.total_files = s.total_files ∧
  s.flagI ≤ s'.flagI ∧
  s.downloaded_files ≤ s'.downloaded_files ∧
  (∀ e, e ∈ s.events → e ∈ s'.events) ∧
  (Ev.complete ∈ s'.events → Ev.complete ∈ s.events) ∧
  (Ev.canceled ∈ s'.events → Ev.canceled ∈ s.events ∨
    ∃ i, s.flagI ≤ i ∧ i < s'.flagI ∧ env.cancel i = true)

theorem stepR_refl (env : Env) (s : St) : StepR env s s := by
  refine ⟨rfl, le_refl _, le_refl _, fun e he => he, fun h => h, fun h => Or.inl h⟩

theorem stepR_trans {env : Env} {s s' s'' : St} (h1 : StepR env s s')
    (h2 : StepR env s' s'') : StepR env s s'' := by
  rcases h1 with ⟨a1, a2, a3, a4, a5, a6⟩
  rcases h2 with ⟨b1, b2, b3, b4, b5, b6⟩
  refine ⟨b1.trans a1, a2.trans b2, a3.trans b3, fun e he => b4 e (a4 e he),
    fun h => a5 (b5 h), ?_⟩
  intro h
  rcases b6 h with h' | ⟨i, hi1, hi2, hi3⟩
  · rcases a6 h' with h'' | ⟨i, hi1, hi2, hi3⟩
    · exact Or.inl h''
    · exact Or.inr ⟨i, hi1, lt_of_lt_of_le hi2 b2, hi3⟩
  · exact Or.inr ⟨i, a2.trans hi1, hi2, hi3⟩

/-- States that only append events (none of them terminal) and advance
counters satisfy the step relation. -/
theorem stepR_append (env : Env) (s s' : St) (t : List Ev)
    (htf : s'.total_files = s.total_files)
    (hfl : s.flagI ≤ s'.flagI)
    (hdl : s.downloaded_files ≤ s'.downloaded_files)
    (hev : s'.events = s.events ++ t)
    (hc : Ev.complete ∉ t) (hk : Ev.canceled ∉ t) : StepR env s s' := by
  refine ⟨htf, hfl, hdl, ?_, ?_, ?_⟩
  · intro e he
    rw [hev]
    exact List.mem_append.mpr (Or.inl he)
  · intro h
    rw [hev] at h
    rcases List.mem_append.mp h with h | h
    · exact h
    · exact absurd h hc
  · intro h
    rw [hev] at h
    rcases List.mem_append.mp h with h | h
    · exact Or.inl h
    · exact absurd h hk

/-- The state after a stream open, whatever the response. -/
theorem streamGet_snd (env : Env) (url : String) (ua au : Bool) (s : St) :
    (streamGet env url ua au s).2 =
      { s with streamA := fun u => if u = url then s.streamA u + 1 else s.streamA u
               events := s.events ++ [Ev.reqStream url ua au] } := by
  simp only [streamGet]
  cases env.stream url (s.streamA url) <;> rfl

/-- The state after a listing fetch, whatever the response. -/
theorem listingGet_snd (env : Env) (url : String) (ua : Bool) (s : St) :
    (listingGet env url ua s).2 =
      { s with listA := fun u => if u = url then s.listA u + 1 else s.listA u
               events := s.events ++ [Ev.reqListing url ua] } := by
  simp only [listingGet]
  cases env.listing url (s.listA url) <;> rfl

/-- Step bundle for test.py's post-success tail. -/
theorem postOk1_spec (env : Env) (fsize bytes : Nat) (fp : String) (s : St) :
    StepR env s (T1.postOk fsize bytes fp s).2 ∧
    (T1.postOk fsize bytes fp s).2.downloaded_files ≤ s.downloaded_files + 1 ∧
    (T1.postOk fsize bytes fp s).2.flagI = s.flagI := by
  simp only [T1.postOk]
  by_cases h1 : fsize > 0 ∧ bytes = 0
  · rw [if_pos h1]
    exact ⟨stepR_append env _ _ [] (by simp) (by simp) (by simp) (by simp [emit])
      (by simp) (by simp), by simp, by simp⟩
  · rw [if_neg h1]
    by_cases h2 : fsize > 0
    · rw [if_pos h2]
      simp only [emit]
      by_cases h3 : s.total_files = 0
      · rw [if_pos h3]
        refine ⟨stepR_append env _ _ [Ev.timeRemaining] (by simp) (by simp)
          (by simp) (by simp) (by simp) (by simp), by simp, by simp⟩
      · rw [if_neg h3]
        refine ⟨stepR_append env _ _ [Ev.timeRemaining,
            Ev.overallProgress ((s.downloaded_files + 1) * 100 / s.total_files),
            Ev.logLine LogK.downloadedMsg, Ev.timeRemaining]
          (by simp) (by simp) (by simp) (by simp) (by simp) (by simp), by simp, by simp⟩
    · rw [if_neg h2]
      simp only [emit]
      by_cases h3 : s.total_files = 0
      · rw [if_pos h3]
        refine ⟨stepR_append env _ _ [] (by simp) (by simp)
          (by simp) (by simp) (by simp) (by simp), by simp, by simp⟩
      · rw [if_neg h3]
        refine ⟨stepR_append env _ _ [Ev.overallProgress ((s.downloaded_files + 1) * 100 / s.total_files),
            Ev.logLine LogK.downloadedMsg, Ev.timeRemaining]
          (by simp) (by simp) (by simp) (by simp) (by simp) (by simp), by simp, by simp⟩

/-- Step bundle for test-3's post-success tail. -/
theorem postOk3_spec (env : Env) (fsize bytes : Nat) (fp : String) (s : St) :
    StepR env s (T3.postOk fsize bytes fp s).2 ∧
    (T3.postOk fsize bytes fp s).2.downloaded_files ≤ s.downloaded_files + 1 ∧
    (T3.postOk fsize bytes fp s).2.flagI = s.flagI := by
  simp only [T3.postOk]
  by_cases h1 : fsize > 0 ∧ bytes = 0
  · rw [if_pos h1]
    exact ⟨stepR_refl env s, by simp, rfl⟩
  · rw [if_neg h1]
    by_cases h2 : fsize > 0
    · rw [if_pos h2]
      simp only [emit]
      refine ⟨stepR_append env _ _ [Ev.timeRemaining,
          Ev.overallProgress (if s.total_files > 0 then (s.downloaded_files + 1) * 100 / s.total_files else 100),
          Ev.logLine LogK.downloadedMsg]
        (by simp) (by simp) (by simp) (by simp) (by simp) (by simp), by simp, by simp⟩
    · rw [if_neg h2]
      simp only [emit]
      refine ⟨stepR_append env _ _ [Ev.overallProgress
            (if s.total_files > 0 then (s.downloaded_files + 1) * 100 / s.total_files else 100),
          Ev.logLine LogK.downloadedMsg]
        (by simp) (by simp) (by simp) (by simp) (by simp) (by simp), by simp, by simp⟩

/-- The chunk loop satisfies the step relation. -/
theorem stepR_of_chunk (env : Env) (bf : Bool) (fsize : Nat) (chunks : List Nat)
    (bytes : Nat) (s : St) (cr : Res CkOut) (cs : St)
    (h : chunkLoop env bf fsize chunks bytes s = (cr, cs)) : StepR env s cs := by
  rcases chunkLoop_spec_eq env bf fsize chunks bytes s cr cs h with ⟨hp, hf, hm, hc, hk⟩
  refine ⟨hp.2.1, hf, le_of_eq hp.1.symm, hm, hc, ?_⟩
  intro hmem
  rcases hk hmem with h1 | ⟨_, i, hi⟩
  · exact Or.inl h1
  · exact Or.inr ⟨i, hi⟩

/-- Full behaviour bundle of test.py's download_file retry loop. -/
theorem dfLoop1_all (env : Env) : ∀ (fuel : Nat) (url fp : String) (s : St),
    StepR env s (T1.dfLoop env fuel url fp s).2 ∧
    (T1.dfLoop env fuel url fp s).2.downloaded_files ≤ s.downloaded_files + 1 ∧
    (Ev.canceled ∈ (T1.dfLoop env fuel url fp s).2.events → Ev.canceled ∈ s.events ∨
      ((T1.dfLoop env fuel url fp s).2.ledger = s.ledger ∧
       (T1.dfLoop env fuel url fp s).2.completed_files = s.completed_files)) := by
  intro fuel
  induction fuel with
  | zero =>
    intro url fp s
    exact ⟨stepR_refl env s, Nat.le_succ _, fun h => Or.inl h⟩
  | succ fuel ih =>
    intro url fp s
    simp only [T1.dfLoop, readCancel]
    cases hcan : env.cancel s.flagI
    · simp only []
      split
      next e s2 heq =>
        have hs2 : (streamGet env url false false { s with flagI := s.flagI + 1 }).2 = s2 := by
          rw [heq]
        rw [streamGet_snd] at hs2
        have he2 : s2.events = s.events ++ [Ev.reqStream url false false] := by rw [← hs2]
        have hf2 : s2.flagI = s.flagI + 1 := by rw [← hs2]
        have hd2 : s2.downloaded_files = s.downloaded_files := by rw [← hs2]
        have hl2 : s2.ledger = s.ledger := by rw [← hs2]
        have hc2 : s2.completed_files = s.completed_files := by rw [← hs2]
        have ht2 : s2.total_files = s.total_files := by rw [← hs2]
        have ihX := ih url fp (emit (Ev.sleep 60) (emit Ev.msgBox (emit (Ev.logLine LogK.netIssue) s2)))
        refine ⟨stepR_trans (stepR_append env s _
            [Ev.reqStream url false false, Ev.logLine LogK.netIssue, Ev.msgBox, Ev.sleep 60]
            (by simp [emit, ht2]) (by simp [emit]; omega) (by simp [emit, hd2])
            (by simp [emit, he2]) (by simp) (by simp)) ihX.1, ?_, ?_⟩
        · calc (T1.dfLoop env fuel url fp _).2.downloaded_files
              ≤ _ + 1 := ihX.2.1
            _ = s.downloaded_files + 1 := by simp [emit, hd2]
        · intro hm
          rcases ihX.2.2 hm with h1 | ⟨h1, h2⟩
          · left
            simp only [emit, List.mem_append, he2] at h1
            simpa using h1
          · right
            rw [h1, h2]
            simp [emit, hl2, hc2]
      next s2 heq =>
        have hs2 : (streamGet env url false false { s with flagI := s.flagI + 1 }).2 = s2 := by
          rw [heq]
        rw [streamGet_snd] at hs2
        have he2 : s2.events = s.events ++ [Ev.reqStream url false false] := by rw [← hs2]
        have hf2 : s2.flagI = s.flagI + 1 := by rw [← hs2]
        have hd2 : s2.downloaded_files = s.downloaded_files := by rw [← hs2]
        have ht2 : s2.total_files = s.total_files := by rw [← hs2]
        refine ⟨stepR_append env s _ [Ev.reqStream url false false]
          (by simp [ht2]) (by simp [hf2]) (by simp [hd2]) (by simp [he2]) (by simp) (by simp),
          by simp [hd2], ?_⟩
        intro hm
        left
        rw [he2] at hm
        simpa using hm
      next r s2 heq =>
        have hs2 : (streamGet env url false false { s with flagI := s.flagI + 1 }).2 = s2 := by
          rw [heq]
        rw [streamGet_snd] at hs2
        have he2 : s2.events = s.events ++ [Ev.reqStream url false false] := by rw [← hs2]
        have hf2 : s2.flagI = s.flagI + 1 := by rw [← hs2]
        have hd2 : s2.downloaded_files = s.downloaded_files := by rw [← hs2]
        have hl2 : s2.ledger = s.ledger := by rw [← hs2]
        have hc2 : s2.completed_files = s.completed_files := by rw [← hs2]
        have ht2 : s2.total_files = s.total_files := by rw [← hs2]
        have hstep1 : StepR env s s2 := stepR_append env s _ [Ev.reqStream url false false]
          (by simp [ht2]) (by omega) (by simp [hd2]) (by simp [he2]) (by simp) (by simp)
        have hmem2 : Ev.canceled ∈ s2.events → Ev.canceled ∈ s.events := by
          intro hm
          rw [he2] at hm
          simpa using hm
        by_cases hst : r.status = 200
        · rw [if_pos hst]
          split
          next bytes s3 hck =>
            rcases chunkLoop_spec_eq env r.bodyFail r.contentLength r.chunks 0 _ _ _ hck
              with ⟨hp, hf, hm, hc, hk⟩
            have hstep2 : StepR env s s3 :=
              stepR_trans hstep1 (stepR_of_chunk env _ _ _ _ _ _ _ hck)
            refine ⟨stepR_trans hstep2 (postOk1_spec env r.contentLength bytes fp s3).1, ?_, ?_⟩
            · calc (T1.postOk r.contentLength bytes fp s3).2.downloaded_files
                  ≤ s3.downloaded_files + 1 := (postOk1_spec env r.contentLength bytes fp s3).2.1
                _ = s.downloaded_files + 1 := by rw [hp.1, hd2]
            · intro hmem
              left
              have h1 : Ev.canceled ∈ s3.events := by
                rcases (postOk1_spec env r.contentLength bytes fp s3).1 with ⟨_, _, _, _, _, hkk⟩
                rcases hkk hmem with h1 | ⟨i, hi1, hi2, _⟩
                · exact h1
                · rw [(postOk1_spec env r.contentLength bytes fp s3).2.2] at hi2
                  omega
              rcases hk h1 with h2 | ⟨hcr, _⟩
              · exact hmem2 h2
              · exact absurd hcr (by simp)
          next s3 hck =>
            rcases chunkLoop_spec_eq env r.bodyFail r.contentLength r.chunks 0 _ _ _ hck
              with ⟨hp, hf, hm, hc, hk⟩
            refine ⟨stepR_trans hstep1 (stepR_of_chunk env _ _ _ _ _ _ _ hck), ?_, ?_⟩
            · rw [hp.1, hd2]
              simp
            · intro hmem
              rcases hk hmem with h1 | _
              · exact Or.inl (hmem2 h1)
              · right
                rw [hp.2.2.2.2.2.1, hp.2.2.2.1]
                exact ⟨hl2, hc2⟩
          next s3 hck =>
            rcases chunkLoop_spec_eq env r.bodyFail r.contentLength r.chunks 0 _ _ _ hck
              with ⟨hp, hf, hm, hc, hk⟩
            have ihX := ih url fp (emit (Ev.sleep 60) (emit Ev.msgBox (emit (Ev.logLine LogK.netIssue) s3)))
            have hmem3 : Ev.canceled ∈ s3.events → Ev.canceled ∈ s.events := by
              intro h1
              rcases hk h1 with h2 | ⟨hcr, _⟩
              · exact hmem2 h2
              · exact absurd hcr (by simp)
            refine ⟨stepR_trans (stepR_trans (stepR_trans hstep1
                (stepR_of_chunk env _ _ _ _ _ _ _ hck))
                (stepR_append env s3 _ [Ev.logLine LogK.netIssue, Ev.msgBox, Ev.sleep 60]
                  (by simp [emit]) (by simp [emit]) (by simp [emit]) (by simp [emit])
                  (by simp) (by simp))) ihX.1, ?_, ?_⟩
            · calc (T1.dfLoop env fuel url fp _).2.downloaded_files
                  ≤ _ + 1 := ihX.2.1
                _ = s.downloaded_files + 1 := by simp [emit, hp.1, hd2]
            · intro hmem
              rcases ihX.2.2 hmem with h1 | ⟨h1, h2⟩
              · left
                apply hmem3
                simp only [emit, List.mem_append] at h1
                simpa using h1
              · right
                rw [h1, h2]
                simp only [emit]
                rw [hp.2.2.2.2.2.1, hp.2.2.2.1]
                exact ⟨hl2, hc2⟩
          next e s3 hne2 hck =>
            rcases chunkLoop_spec_eq env r.bodyFail r.contentLength r.chunks 0 _ _ _ hck
              with ⟨hp, hf, hm, hc, hk⟩
            refine ⟨stepR_trans hstep1 (stepR_of_chunk env _ _ _ _ _ _ _ hck), ?_, ?_⟩
            · rw [hp.1, hd2]
              simp
            · intro hmem
              rcases hk hmem with h1 | ⟨hcr, _⟩
              · exact Or.inl (hmem2 h1)
              · exact absurd hcr (by simp)
          next s3 hck =>
            rcases chunkLoop_spec_eq env r.bodyFail r.contentLength r.chunks 0 _ _ _ hck
              with ⟨hp, hf, hm, hc, hk⟩
            refine ⟨stepR_trans hstep1 (stepR_of_chunk env _ _ _ _ _ _ _ hck), ?_, ?_⟩
            · rw [hp.1, hd2]
              simp
            · intro hmem
              rcases hk hmem with h1 | ⟨hcr, _⟩
              · exact Or.inl (hmem2 h1)
              · exact absurd hcr (by simp)
        · rw [if_neg hst]
          refine ⟨stepR_append env s _ [Ev.reqStream url false false,
              Ev.logLine LogK.failedDownload]
            (by simp [emit, ht2]) (by simp [emit]; omega) (by simp [emit, hd2])
            (by simp [emit, he2]) (by simp) (by simp), by simp [emit, hd2], ?_⟩
          intro hm
          left
          simp only [emit, List.mem_append, he2] at hm
          simpa using hm
    · simp only []
      refine ⟨⟨by simp [emit], by simp [emit], by simp [emit], ?_, ?_, ?_⟩, by simp [emit], ?_⟩
      · intro e he; simp [emit, he]
      · intro h; simpa [emit] using h
      · intro _
        exact Or.inr ⟨s.flagI, le_refl _, by simp [emit], hcan⟩
      · intro _
        exact Or.inr ⟨by simp [emit], by simp [emit]⟩

/-- Full behaviour bundle of test-3's download_file retry/redirect loop. -/
theorem dfLoop3_all (env : Env) (auth : Bool) : ∀ (fuel : Nat) (url fp : String) (s : St),
    StepR env s (T3.dfLoop env auth fuel url fp s).2 ∧
    (T3.dfLoop env auth fuel url fp s).2.downloaded_files ≤ s.downloaded_files + 1 ∧
    (Ev.canceled ∈ (T3.dfLoop env auth fuel url fp s).2.events → Ev.canceled ∈ s.events ∨
      ((T3.dfLoop env auth fuel url fp s).2.ledger = s.ledger ∧
       (T3.dfLoop env auth fuel url fp s).2.completed_files = s.completed_files)) := by
  intro fuel
  induction fuel with
  | zero =>
    intro url fp s
    exact ⟨stepR_refl env s, Nat.le_succ _, fun h => Or.inl h⟩
  | succ fuel ih =>
    intro url fp s
    simp only [T3.dfLoop, readCancel]
    cases hcan : env.cancel s.flagI
    · simp only []
      split
      next e s2 heq =>
        have hs2 : (streamGet env url true auth { s with flagI := s.flagI + 1 }).2 = s2 := by
          rw [heq]
        rw [streamGet_snd] at hs2
        have he2 : s2.events = s.events ++ [Ev.reqStream url true auth] := by rw [← hs2]
        have hf2 : s2.flagI = s.flagI + 1 := by rw [← hs2]
        have hd2 : s2.downloaded_files = s.downloaded_files := by rw [← hs2]
        have hl2 : s2.ledger = s.ledger := by rw [← hs2]
        have hc2 : s2.completed_files = s.completed_files := by rw [← hs2]
        have ht2 : s2.total_files = s.total_files := by rw [← hs2]
        have ihX := ih url fp (emit (Ev.sleep 60) (emit (Ev.logLine LogK.netIssue) s2))
        refine ⟨stepR_trans (stepR_append env s _
            [Ev.reqStream url true auth, Ev.logLine LogK.netIssue, Ev.sleep 60]
            (by simp [emit, ht2]) (by simp [emit, hf2]) (by simp [emit, hd2])
            (by simp [emit, he2]) (by simp) (by simp)) ihX.1, ?_, ?_⟩
        · calc (T3.dfLoop env auth fuel url fp _).2.downloaded_files
              ≤ _ + 1 := ihX.2.1
            _ = s.downloaded_files + 1 := by simp [emit, hd2]
        · intro hm
          rcases ihX.2.2 hm with h1 | ⟨h1, h2⟩
          · left
            simp only [emit, List.mem_append, he2] at h1
            simpa using h1
          · right
            rw [h1, h2]
            simp [emit, hl2, hc2]
      next s2 heq =>
        have hs2 : (streamGet env url true auth { s with flagI := s.flagI + 1 }).2 = s2 := by
          rw [heq]
        rw [streamGet_snd] at hs2
        have he2 : s2.events = s.events ++ [Ev.reqStream url true auth] := by rw [← hs2]
        have hf2 : s2.flagI = s.flagI + 1 := by rw [← hs2]
        have hd2 : s2.downloaded_files = s.downloaded_files := by rw [← hs2]
        have ht2 : s2.total_files = s.total_files := by rw [← hs2]
        refine ⟨stepR_append env s _ [Ev.reqStream url true auth]
          (by simp [ht2]) (by simp [hf2]) (by simp [hd2]) (by simp [he2]) (by simp) (by simp),
          by simp [hd2], ?_⟩
        intro hm
        left
        rw [he2] at hm
        simpa using hm
      next r s2 heq =>
        have hs2 : (streamGet env url true auth { s with flagI := s.flagI + 1 }).2 = s2 := by
          rw [heq]
        rw [streamGet_snd] at hs2
        have he2 : s2.events = s.events ++ [Ev.reqStream url true auth] := by rw [← hs2]
        have hf2 : s2.flagI = s.flagI + 1 := by rw [← hs2]
        have hd2 : s2.downloaded_files = s.downloaded_files := by rw [← hs2]
        have hl2 : s2.ledger = s.ledger := by rw [← hs2]
        have hc2 : s2.completed_files = s.completed_files := by rw [← hs2]
        have ht2 : s2.total_files = s.total_files := by rw [← hs2]
        have hstep1 : StepR env s s2 := stepR_append env s _ [Ev.reqStream url true auth]
          (by simp [ht2]) (by simp [hf2]) (by simp [hd2]) (by simp [he2]) (by simp) (by simp)
        have hmem2 : Ev.canceled ∈ s2.events → Ev.canceled ∈ s.events := by
          intro hm
          rw [he2] at hm
          simpa using hm
        by_cases h302 : r.status = 302
        · rw [if_pos h302]
          cases hloc : r.location with
          | none =>
            exact ⟨hstep1, by simp [hd2], fun hm => Or.inl (hmem2 hm)⟩
          | some l =>
            have ihX := ih l fp (emit (Ev.logLine LogK.redirectMsg) s2)
            refine ⟨stepR_trans (stepR_append env s _
                [Ev.reqStream url true auth, Ev.logLine LogK.redirectMsg]
                (by simp [emit, ht2]) (by simp [emit, hf2]) (by simp [emit, hd2])
                (by simp [emit, he2]) (by simp) (by simp)) ihX.1, ?_, ?_⟩
            · calc (T3.dfLoop env auth fuel l fp _).2.downloaded_files
                  ≤ _ + 1 := ihX.2.1
                _ = s.downloaded_files + 1 := by simp [emit, hd2]
            · intro hm
              rcases ihX.2.2 hm with h1 | ⟨h1, h2⟩
              · left
                simp only [emit, List.mem_append, he2] at h1
                simpa using h1
              · right
                rw [h1, h2]
                simp [emit, hl2, hc2]
        · rw [if_neg h302]
          by_cases hst : r.status = 200
          · rw [if_pos hst]
            split
            next bytes s3 hck =>
              rcases chunkLoop_spec_eq env r.bodyFail r.contentLength r.chunks 0 _ _ _ hck
                with ⟨hp, hf, hm, hc, hk⟩
              have hstep2 : StepR env s s3 :=
                stepR_trans hstep1 (stepR_of_chunk env _ _ _ _ _ _ _ hck)
              refine ⟨stepR_trans hstep2 (postOk3_spec env r.contentLength bytes fp s3).1, ?_, ?_⟩
              · calc (T3.postOk r.contentLength bytes fp s3).2.downloaded_files
                    ≤ s3.downloaded_files + 1 := (postOk3_spec env r.contentLength bytes fp s3).2.1
                  _ = s.downloaded_files + 1 := by rw [hp.1, hd2]
              · intro hmem
                left
                have h1 : Ev.canceled ∈ s3.events := by
                  rcases (postOk3_spec env r.contentLength bytes fp s3).1 with ⟨_, _, _, _, _, hkk⟩
                  rcases hkk hmem with h1 | ⟨i, hi1, hi2, _⟩
                  · exact h1
                  · rw [(postOk3_spec env r.contentLength bytes fp s3).2.2] at hi2
                    omega
                rcases hk h1 with h2 | ⟨hcr, _⟩
                · exact hmem2 h2
                · exact absurd hcr (by simp)
            next s3 hck =>
              rcases chunkLoop_spec_eq env r.bodyFail r.contentLength r.chunks 0 _ _ _ hck
                with ⟨hp, hf, hm, hc, hk⟩
              refine ⟨stepR_trans hstep1 (stepR_of_chunk env _ _ _ _ _ _ _ hck), ?_, ?_⟩
              · rw [hp.1, hd2]
                simp
              · intro hmem
                rcases hk hmem with h1 | _
                · exact Or.inl (hmem2 h1)
                · right
                  rw [hp.2.2.2.2.2.1, hp.2.2.2.1]
                  exact ⟨hl2, hc2⟩
            next s3 hck =>
              rcases chunkLoop_spec_eq env r.bodyFail r.contentLength r.chunks 0 _ _ _ hck
                with ⟨hp, hf, hm, hc, hk⟩
              have ihX := ih url fp (emit (Ev.sleep 60) (emit (Ev.logLine LogK.netIssue) s3))
              have hmem3 : Ev.canceled ∈ s3.events → Ev.canceled ∈ s.events := by
                intro h1
                rcases hk h1 with h2 | ⟨hcr, _⟩
                · exact hmem2 h2
                · exact absurd hcr (by simp)
              refine ⟨stepR_trans (stepR_trans (stepR_trans hstep1
                  (stepR_of_chunk env _ _ _ _ _ _ _ hck))
                  (stepR_append env s3 _ [Ev.logLine LogK.netIssue, Ev.sleep 60]
                    (by simp [emit]) (by simp [emit]) (by simp [emit]) (by simp [emit])
                    (by simp) (by simp))) ihX.1, ?_, ?_⟩
              · calc (T3.dfLoop env auth fuel url fp _).2.downloaded_files
                    ≤ _ + 1 := ihX.2.1
                  _ = s.downloaded_files + 1 := by simp [emit, hp.1, hd2]
              · intro hmem
                rcases ihX.2.2 hmem with h1 | ⟨h1, h2⟩
                · left
                  apply hmem3
                  simp only [emit, List.mem_append] at h1
                  simpa using h1
                · right
                  rw [h1, h2]
                  simp only [emit]
                  rw [hp.2.2.2.2.2.1, hp.2.2.2.1]
                  exact ⟨hl2, hc2⟩
            next e s3 hne2 hck =>
              rcases chunkLoop_spec_eq env r.bodyFail r.contentLength r.chunks 0 _ _ _ hck
                with ⟨hp, hf, hm, hc, hk⟩
              refine ⟨stepR_trans hstep1 (stepR_of_chunk env _ _ _ _ _ _ _ hck), ?_, ?_⟩
              · rw [hp.1, hd2]
                simp
              · intro hmem
                rcases hk hmem with h1 | ⟨hcr, _⟩
                · exact Or.inl (hmem2 h1)
                · exact absurd hcr (by simp)
            next s3 hck =>
              rcases chunkLoop_spec_eq env r.bodyFail r.contentLength r.chunks 0 _ _ _ hck
                with ⟨hp, hf, hm, hc, hk⟩
              refine ⟨stepR_trans hstep1 (stepR_of_chunk env _ _ _ _ _ _ _ hck), ?_, ?_⟩
              · rw [hp.1, hd2]
                simp
              · intro hmem
                rcases hk hmem with h1 | ⟨hcr, _⟩
                · exact Or.inl (hmem2 h1)
                · exact absurd hcr (by simp)
          · rw [if_neg hst]
            refine ⟨stepR_append env s _ [Ev.reqStream url true auth,
                Ev.logLine LogK.failedDownload]
              (by simp [emit, ht2]) (by simp [emit, hf2]) (by simp [emit, hd2])
              (by simp [emit, he2]) (by simp) (by simp), by simp [emit, hd2], ?_⟩
            intro hm
            left
            simp only [emit, List.mem_append, he2] at hm
            simpa using hm
    · simp only []
      refine ⟨⟨by simp [emit], by simp [emit], by simp [emit], ?_, ?_, ?_⟩, by simp [emit], ?_⟩
      · intro e he; simp [emit, he]
      · intro h; simpa [emit] using h
      · intro _
        exact Or.inr ⟨s.flagI, le_refl _, by simp [emit], hcan⟩
      · intro _
        exact Or.inr ⟨by simp [emit], by simp [emit]⟩

/-- Full behaviour bundle of test.py's download_file. -/
theorem df1_all (env : Env) (fuel : Nat) (url dest : String) (s : St) :
    StepR env s (T1.download_file env fuel url dest s).2 ∧
    (T1.download_file env fuel url dest s).2.downloaded_files ≤ s.downloaded_files + 1 ∧
    (Ev.canceled ∈ (T1.download_file env fuel url dest s).2.events → Ev.canceled ∈ s.events ∨
      ((T1.download_file env fuel url dest s).2.ledger = s.ledger ∧
       (T1.download_file env fuel url dest s).2.completed_files = s.completed_files)) := by
  simp only [T1.download_file, readCancel]
  cases hcan : env.cancel s.flagI
  · simp only []
    by_cases hmem : pjoin dest (afterLastSlash url) ∈ s.completed_files
    · rw [if_pos (by simpa using hmem)]
      refine ⟨stepR_append env s _ [Ev.logLine LogK.skipMsg]
        (by simp [emit]) (by simp [emit]) (by simp [emit]) (by simp [emit])
        (by simp) (by simp), by simp [emit], ?_⟩
      intro hm
      left
      simp only [emit, List.mem_append] at hm
      simpa using hm
    · rw [if_neg (by simpa using hmem)]
      have h := dfLoop1_all env fuel url (pjoin dest (afterLastSlash url))
        { s with flagI := s.flagI + 1 }
      refine ⟨stepR_trans (stepR_append env s _ []
        (by simp) (by simp) (by simp) (by simp) (by simp) (by simp)) h.1,
        by simpa using h.2.1, ?_⟩
      intro hm
      rcases h.2.2 hm with h1 | ⟨h1, h2⟩
      · exact Or.inl (by simpa using h1)
      · exact Or.inr ⟨by simpa using h1, by simpa using h2⟩
  · simp only []
    refine ⟨⟨by simp [emit], by simp [emit], by simp [emit], ?_, ?_, ?_⟩, by simp [emit], ?_⟩
    · intro e he; simp [emit, he]
    · intro h; simpa [emit] using h
    · intro _
      exact Or.inr ⟨s.flagI, le_refl _, by simp [emit], hcan⟩
    · intro _
      exact Or.inr ⟨by simp [emit], by simp [emit]⟩

/-- Full behaviour bundle of test-3's download_file. -/
theorem df3_all (env : Env) (fuel : Nat) (url dest username password : String) (s : St) :
    StepR env s (T3.download_file env fuel url dest username password s).2 ∧
    (T3.download_file env fuel url dest username password s).2.downloaded_files ≤
      s.downloaded_files + 1 ∧
    (Ev.canceled ∈ (T3.download_file env fuel url dest username password s).2.events →
      Ev.canceled ∈ s.events ∨
      ((T3.download_file env fuel url dest username password s).2.ledger = s.ledger ∧
       (T3.download_file env fuel url dest username password s).2.completed_files =
         s.completed_files)) := by
  simp only [T3.download_file, readCancel]
  cases hcan : env.cancel s.flagI
  · simp only []
    by_cases hmem : pjoin dest (afterLastSlash url) ∈ s.completed_files
    · rw [if_pos (by simpa using hmem)]
      refine ⟨stepR_append env s _ [Ev.logLine LogK.skipMsg]
        (by simp [emit]) (by simp [emit]) (by simp [emit]) (by simp [emit])
        (by simp) (by simp), by simp [emit], ?_⟩
      intro hm
      left
      simp only [emit, List.mem_append] at hm
      simpa using hm
    · rw [if_neg (by simpa using hmem)]
      have h := dfLoop3_all env ((username != "") && (password != "")) fuel url
        (pjoin dest (afterLastSlash url)) { s with flagI := s.flagI + 1 }
      refine ⟨stepR_trans (stepR_append env s _ []
        (by simp) (by simp) (by simp) (by simp) (by simp) (by simp)) h.1,
        by simpa using h.2.1, ?_⟩
      intro hm
      rcases h.2.2 hm with h1 | ⟨h1, h2⟩
      · exact Or.inl (by simpa using h1)
      · exact Or.inr ⟨by simpa using h1, by simpa using h2⟩
  · simp only []
    refine ⟨⟨by simp [emit], by simp [emit], by simp [emit], ?_, ?_, ?_⟩, by simp [emit], ?_⟩
    · intro e he; simp [emit, he]
    · intro h; simpa [emit] using h
    · intro _
      exact Or.inr ⟨s.flagI, le_refl _, by simp [emit], hcan⟩
    · intro _
      exact Or.inr ⟨by simp [emit], by simp [emit]⟩

/-- What count_files preserves: everything except the listing-attempt
counters and the trace, which only gains listing-request events. -/
def CPres (s s' : St) : Prop :=
  s'.downloaded_files = s.downloaded_files ∧ s'.total_files = s.total_files ∧
  s'.flagI = s.flagI ∧ s'.ledger = s.ledger ∧ s'.completed_files = s.completed_files ∧
  s'.streamA = s.streamA ∧ s'.dirs = s.dirs ∧ s'.pending_files = s.pending_files ∧
  s'.total_size = s.total_size ∧
  (∀ e, e ∈ s.events → e ∈ s'.events) ∧
  (∀ e, e ∈ s'.events → e ∈ s.events ∨ ∃ u, e = Ev.reqListing u false)

theorem cpres_refl (s : St) : CPres s s :=
  ⟨rfl, rfl, rfl, rfl, rfl, rfl, rfl, rfl, rfl, fun _ he => he, fun _ he => Or.inl he⟩

theorem cpres_trans {s s' s'' : St} (h1 : CPres s s') (h2 : CPres s' s'') : CPres s s'' := by
  rcases h1 with ⟨a1, a2, a3, a4, a5, a6, a7, a8, a9, a10, a11⟩
  rcases h2 with ⟨b1, b2, b3, b4, b5, b6, b7, b8, b9, b10, b11⟩
  refine ⟨b1.trans a1, b2.trans a2, b3.trans a3, b4.trans a4, b5.trans a5, b6.trans a6,
    b7.trans a7, b8.trans a8, b9.trans a9, fun e he => b10 e (a10 e he), ?_⟩
  intro e he
  rcases b11 e he with h | h
  · exact a11 e h
  · exact Or.inr h

theorem cpres_stepR {env : Env} {s s' : St} (h : CPres s s') : StepR env s s' := by
  rcases h with ⟨a1, a2, a3, a4, a5, a6, a7, a8, a9, a10, a11⟩
  refine ⟨a2, le_of_eq a3.symm, le_of_eq a1.symm, a10, ?_, ?_⟩
  · intro hm
    rcases a11 _ hm with h | ⟨u, h⟩
    · exact h
    · exact absurd h (by simp)
  · intro hm
    rcases a11 _ hm with h | ⟨u, h⟩
    · exact Or.inl h
    · exact absurd h (by simp)

/-- The listing walk of count_files only issues listing requests, given that
the recursive calls do. -/
theorem countLinks_all (url : String) (rec : String → St → Res Nat × St)
    (hrec : ∀ u t, CPres t (rec u t).2) :
    ∀ (anchors : List (Option String)) (acc : Nat) (s : St),
      CPres s (countLinks url rec anchors acc s).2 := by
  intro anchors
  induction anchors with
  | nil => intro acc s; exact cpres_refl s
  | cons a rest ih =>
    intro acc s
    match a with
    | none => exact cpres_refl s
    | some h =>
      simp only [countLinks]
      split
      · exact ih acc s
      · split
        · rcases hc : rec (url ++ h) s with ⟨rr, rs⟩
          have h1 : CPres s rs := by
            have := hrec (url ++ h) s
            rw [hc] at this
            exact this
          match rr with
          | Res.ok n => exact cpres_trans h1 (ih (acc + n) rs)
          | Res.exn PyErr.reqExc => exact h1
          | Res.exn PyErr.zeroDiv => exact h1
          | Res.exn PyErr.typeErr => exact h1
          | Res.exn PyErr.keyErr => exact h1
          | Res.div => exact h1
        · exact ih (acc + 1) s

/-- count_files preserves the whole downloading state; its trace delta is
only listing requests. -/
theorem count_all (env : Env) : ∀ (fuel : Nat) (url : String) (s : St),
    CPres s (count_files env fuel url s).2 := by
  intro fuel
  induction fuel with
  | zero => intro url s; exact cpres_refl s
  | succ fuel ih =>
    intro url s
    have hL : CPres s (listingGet env url false s).2 := by
      rw [listingGet_snd]
      refine ⟨rfl, rfl, rfl, rfl, rfl, rfl, rfl, rfl, rfl, ?_, ?_⟩
      · intro e he; simp [he]
      · intro e he
        simp only [List.mem_append] at he
        rcases he with he | he
        · exact Or.inl he
        · right
          exact ⟨url, by simpa using he⟩
    simp only [count_files]
    split
    next e s1 heq =>
      have : (listingGet env url false s).2 = s1 := by rw [heq]
      rw [← this]
      exact hL
    next s1 heq =>
      have : (listingGet env url false s).2 = s1 := by rw [heq]
      rw [← this]
      exact hL
    next status anchors s1 heq =>
      have hs1 : (listingGet env url false s).2 = s1 := by rw [heq]
      rw [hs1] at hL
      split
      · exact cpres_trans hL (countLinks_all url _ (fun u t => ih u t) anchors 0 s1)
      · exact hL

/-- The listing walk satisfies the step relation whenever the recursive
calls it delegates to do. -/
theorem ddLinks_all (env : Env) (recD recF : String → String → St → Res Unit × St)
    (hD : ∀ u d t, StepR env t (recD u d t).2)
    (hF : ∀ u d t, StepR env t (recF u d t).2) (url dest : String) :
    ∀ (anchors : List (Option String)) (s : St),
      StepR env s (ddLinks recD recF url dest anchors s).2 := by
  intro anchors
  induction anchors with
  | nil => intro s; exact stepR_refl env s
  | cons a rest ih =>
    intro s
    match a with
    | none => exact stepR_refl env s
    | some h =>
      simp only [ddLinks]
      split
      · exact ih s
      · split
        · -- directory entry: mkdir-if-absent, log, recurse, then the rest
          have hev : ((if pjoin dest h ∈ s.dirs then s
              else { s with dirs := s.dirs ++ [pjoin dest h] }) : St).events = s.events := by
            split <;> rfl
          have hfl : ((if pjoin dest h ∈ s.dirs then s
              else { s with dirs := s.dirs ++ [pjoin dest h] }) : St).flagI = s.flagI := by
            split <;> rfl
          have hdl : ((if pjoin dest h ∈ s.dirs then s
              else { s with dirs := s.dirs ++ [pjoin dest h] }) : St).downloaded_files =
              s.downloaded_files := by
            split <;> rfl
          have htf : ((if pjoin dest h ∈ s.dirs then s
              else { s with dirs := s.dirs ++ [pjoin dest h] }) : St).total_files =
              s.total_files := by
            split <;> rfl
          have hstep0 : StepR env s (emit (Ev.logLine LogK.enteringDir)
              (if pjoin dest h ∈ s.dirs then s
               else { s with dirs := s.dirs ++ [pjoin dest h] })) :=
            stepR_append env s _ [Ev.logLine LogK.enteringDir]
              (by simp [emit, htf]) (by simp [emit, hfl]) (by simp [emit, hdl])
              (by simp [emit, hev]) (by simp) (by simp)
          split
          · rename_i s3 heq
            have hd := hD (url ++ h) (pjoin dest h) (emit (Ev.logLine LogK.enteringDir)
              (if pjoin dest h ∈ s.dirs then s
               else { s with dirs := s.dirs ++ [pjoin dest h] }))
            rw [heq] at hd
            exact stepR_trans (stepR_trans hstep0 hd) (ih s3)
          · exact stepR_trans hstep0 (hD (url ++ h) (pjoin dest h)
              (emit (Ev.logLine LogK.enteringDir)
                (if pjoin dest h ∈ s.dirs then s
                 else { s with dirs := s.dirs ++ [pjoin dest h] })))
        · -- file entry: log, delegate to download_file, then the rest
          have hstep0 : StepR env s (emit (Ev.logLine LogK.downloadingFile) s) :=
            stepR_append env s _ [Ev.logLine LogK.downloadingFile]
              (by simp [emit]) (by simp [emit]) (by simp [emit]) (by simp [emit])
              (by simp) (by simp)
          split
          · rename_i s3 heq
            have hf := hF (url ++ h) dest (emit (Ev.logLine LogK.downloadingFile) s)
            rw [heq] at hf
            exact stepR_trans (stepR_trans hstep0 hf) (ih s3)
          · exact stepR_trans hstep0 (hF (url ++ h) dest
              (emit (Ev.logLine LogK.downloadingFile) s))

/-- test.py's download_directory satisfies the step relation. -/
theorem dd1_all (env : Env) : ∀ (fuel : Nat) (url dest : String) (s : St),
    StepR env s (T1.download_directory env fuel url dest s).2 := by
  intro fuel
  induction fuel with
  | zero => intro url dest s; exact stepR_refl env s
  | succ fuel ih =>
    intro url dest s
    simp only [T1.download_directory, readCancel]
    cases hcan : env.cancel s.flagI
    · simp only []
      split
      next e s2 heq =>
        have hs2 : (listingGet env url false { s with flagI := s.flagI + 1 }).2 = s2 := by
          rw [heq]
        rw [listingGet_snd] at hs2
        have he2 : s2.events = s.events ++ [Ev.reqListing url false] := by rw [← hs2]
        have hf2 : s2.flagI = s.flagI + 1 := by rw [← hs2]
        have hd2 : s2.downloaded_files = s.downloaded_files := by rw [← hs2]
        have ht2 : s2.total_files = s.total_files := by rw [← hs2]
        exact stepR_trans (stepR_append env s _
          [Ev.reqListing url false, Ev.logLine LogK.netIssue, Ev.msgBox, Ev.sleep 60]
          (by simp [emit, ht2]) (by simp [emit, hf2]) (by simp [emit, hd2])
          (by simp [emit, he2]) (by simp) (by simp))
          (ih url dest _)
      next s2 heq =>
        have hs2 : (listingGet env url false { s with flagI := s.flagI + 1 }).2 = s2 := by
          rw [heq]
        rw [listingGet_snd] at hs2
        have he2 : s2.events = s.events ++ [Ev.reqListing url false] := by rw [← hs2]
        have hf2 : s2.flagI = s.flagI + 1 := by rw [← hs2]
        have hd2 : s2.downloaded_files = s.downloaded_files := by rw [← hs2]
        have ht2 : s2.total_files = s.total_files := by rw [← hs2]
        exact stepR_append env s _ [Ev.reqListing url false]
          (by simp [ht2]) (by simp [hf2]) (by simp [hd2]) (by simp [he2]) (by simp) (by simp)
      next status anchors s2 heq =>
        have hs2 : (listingGet env url false { s with flagI := s.flagI + 1 }).2 = s2 := by
          rw [heq]
        rw [listingGet_snd] at hs2
        have he2 : s2.events = s.events ++ [Ev.reqListing url false] := by rw [← hs2]
        have hf2 : s2.flagI = s.flagI + 1 := by rw [← hs2]
        have hd2 : s2.downloaded_files = s.downloaded_files := by rw [← hs2]
        have ht2 : s2.total_files = s.total_files := by rw [← hs2]
        have hstep1 : StepR env s s2 := stepR_append env s _ [Ev.reqListing url false]
          (by simp [ht2]) (by simp [hf2]) (by simp [hd2]) (by simp [he2]) (by simp) (by simp)
        by_cases hst : status = 200
        · rw [if_pos hst]
          have hwalk := ddLinks_all env _ _ (fun u d t => ih u d t)
            (fun u d t => (df1_all env fuel u d t).1) url dest anchors s2
          split
          · rename_i s3 heq2
            rw [heq2] at hwalk
            exact stepR_trans (stepR_trans (stepR_trans hstep1 hwalk)
              (stepR_append env s3 _ [Ev.logLine LogK.netIssue, Ev.msgBox, Ev.sleep 60]
                (by simp [emit]) (by simp [emit]) (by simp [emit]) (by simp [emit])
                (by simp) (by simp)))
              (ih url dest _)
          · exact stepR_trans hstep1 hwalk
        · rw [if_neg hst]
          exact stepR_trans hstep1 (stepR_append env s2 _ [Ev.logLine LogK.failedAccess]
            (by simp [emit]) (by simp [emit]) (by simp [emit]) (by simp [emit])
            (by simp) (by simp))
    · simp only []
      refine ⟨by simp [emit], by simp [emit], by simp [emit], ?_, ?_, ?_⟩
      · intro e he; simp [emit, he]
      · intro h; simpa [emit] using h
      · intro _
        exact Or.inr ⟨s.flagI, le_refl _, by simp [emit], hcan⟩

/-- test-3's download_directory satisfies the step relation. -/
theorem dd3_all (env : Env) (username password : String) :
    ∀ (fuel : Nat) (url dest : String) (s : St),
      StepR env s (T3.download_directory env username password fuel url dest s).2 := by
  intro fuel
  induction fuel with
  | zero => intro url dest s; exact stepR_refl env s
  | succ fuel ih =>
    intro url dest s
    simp only [T3.download_directory, readCancel]
    cases hcan : env.cancel s.flagI
    · simp only []
      split
      next e s2 heq =>
        have hs2 : (listingGet env url false { s with flagI := s.flagI + 1 }).2 = s2 := by
          rw [heq]
        rw [listingGet_snd] at hs2
        have he2 : s2.events = s.events ++ [Ev.reqListing url false] := by rw [← hs2]
        have hf2 : s2.flagI = s.flagI + 1 := by rw [← hs2]
        have hd2 : s2.downloaded_files = s.downloaded_files := by rw [← hs2]
        have ht2 : s2.total_files = s.total_files := by rw [← hs2]
        exact stepR_trans (stepR_append env s _
          [Ev.reqListing url false, Ev.logLine LogK.netIssue, Ev.sleep 60]
          (by simp [emit, ht2]) (by simp [emit, hf2]) (by simp [emit, hd2])
          (by simp [emit, he2]) (by simp) (by simp))
          (ih url dest _)
      next s2 heq =>
        have hs2 : (listingGet env url false { s with flagI := s.flagI + 1 }).2 = s2 := by
          rw [heq]
        rw [listingGet_snd] at hs2
        have he2 : s2.events = s.events ++ [Ev.reqListing url false] := by rw [← hs2]
        have hf2 : s2.flagI = s.flagI + 1 := by rw [← hs2]
        have hd2 : s2.downloaded_files = s.downloaded_files := by rw [← hs2]
        have ht2 : s2.total_files = s.total_files := by rw [← hs2]
        exact stepR_append env s _ [Ev.reqListing url false]
          (by simp [ht2]) (by simp [hf2]) (by simp [hd2]) (by simp [he2]) (by simp) (by simp)
      next status anchors s2 heq =>
        have hs2 : (listingGet env url false { s with flagI := s.flagI + 1 }).2 = s2 := by
          rw [heq]
        rw [listingGet_snd] at hs2
        have he2 : s2.events = s.events ++ [Ev.reqListing url false] := by rw [← hs2]
        have hf2 : s2.flagI = s.flagI + 1 := by rw [← hs2]
        have hd2 : s2.downloaded_files = s.downloaded_files := by rw [← hs2]
        have ht2 : s2.total_files = s.total_files := by rw [← hs2]
        have hstep1 : StepR env s s2 := stepR_append env s _ [Ev.reqListing url false]
          (by simp [ht2]) (by simp [hf2]) (by simp [hd2]) (by simp [he2]) (by simp) (by simp)
        by_cases hst : status = 200
        · rw [if_pos hst]
          have hwalk := ddLinks_all env _ _ (fun u d t => ih u d t)
            (fun u d t => (df3_all env fuel u d username password t).1) url dest anchors s2
          split
          · rename_i s3 heq2
            rw [heq2] at hwalk
            exact stepR_trans (stepR_trans (stepR_trans hstep1 hwalk)
              (stepR_append env s3 _ [Ev.logLine LogK.netIssue, Ev.sleep 60]
                (by simp [emit]) (by simp [emit]) (by simp [emit]) (by simp [emit])
                (by simp) (by simp)))
              (ih url dest _)
          · exact stepR_trans hstep1 hwalk
        · rw [if_neg hst]
          exact stepR_trans hstep1 (stepR_append env s2 _ [Ev.logLine LogK.failedAccess]
            (by simp [emit]) (by simp [emit]) (by simp [emit]) (by simp [emit])
            (by simp) (by simp))
    · simp only []
      refine ⟨by simp [emit], by simp [emit], by simp [emit], ?_, ?_, ?_⟩
      · intro e he; simp [emit, he]
      · intro h; simpa [emit] using h
      · intro _
        exact Or.inr ⟨s.flagI, le_refl _, by simp [emit], hcan⟩

/-- test.py's post-success tail raises at most ZeroDivisionError. -/
theorem postOk1_no_reqExc (fsize bytes : Nat) (fp : String) (s : St) :
    (T1.postOk fsize bytes fp s).1 ≠ Res.exn PyErr.reqExc := by
  simp only [T1.postOk]
  by_cases h1 : fsize > 0 ∧ bytes = 0
  · simp [h1]
  · rw [if_neg h1]
    by_cases h3 : (if fsize > 0 then emit Ev.timeRemaining
        { s with downloaded_files := s.downloaded_files + 1
                 total_size := s.total_size + fsize }
      else { s with downloaded_files := s.downloaded_files + 1
                    total_size := s.total_size + fsize }).total_files = 0
    · rw [if_pos h3]
      simp
    · rw [if_neg h3]
      simp

/-- test.py's download_file never ends in an uncaught RequestException:
its own `except requests.RequestException` catches every transport error. -/
theorem dfLoop1_no_reqExc (env : Env) : ∀ (fuel : Nat) (url fp : String) (s : St),
    (T1.dfLoop env fuel url fp s).1 ≠ Res.exn PyErr.reqExc := by
  intro fuel
  induction fuel with
  | zero => intro url fp s; simp [T1.dfLoop]
  | succ fuel ih =>
    intro url fp s
    simp only [T1.dfLoop, readCancel]
    cases hcan : env.cancel s.flagI
    · simp only []
      split
      next e s2 heq => exact ih url fp _
      next s2 heq => simp
      next r s2 heq =>
        by_cases hst : r.status = 200
        · rw [if_pos hst]
          rcases hck : chunkLoop env r.bodyFail r.contentLength r.chunks 0 s2 with ⟨cr, cs⟩
          match cr with
          | Res.ok (CkOut.done bytes) => exact postOk1_no_reqExc r.contentLength bytes fp cs
          | Res.ok CkOut.stop => simp
          | Res.exn PyErr.reqExc => exact ih url fp _
          | Res.exn PyErr.zeroDiv => simp
          | Res.exn PyErr.typeErr => simp
          | Res.exn PyErr.keyErr => simp
          | Res.div => simp
        · rw [if_neg hst]
          simp
    · simp

theorem df1_no_reqExc (env : Env) (fuel : Nat) (url dest : String) (s : St) :
    (T1.download_file env fuel url dest s).1 ≠ Res.exn PyErr.reqExc := by
  simp only [T1.download_file, readCancel]
  cases hcan : env.cancel s.flagI
  · simp only []
    by_cases hmem : pjoin dest (afterLastSlash url) ∈ s.completed_files
    · rw [if_pos (by simpa using hmem)]
      simp
    · rw [if_neg (by simpa using hmem)]
      exact dfLoop1_no_reqExc env fuel url _ _
  · simp

/-- The listing walk never ends in a RequestException when its delegates do
not. -/
theorem ddLinks_no_reqExc (recD recF : String → String → St → Res Unit × St)
    (hD : ∀ u d t, (recD u d t).1 ≠ Res.exn PyErr.reqExc)
    (hF : ∀ u d t, (recF u d t).1 ≠ Res.exn PyErr.reqExc) (url dest : String) :
    ∀ (anchors : List (Option String)) (s : St),
      (ddLinks recD recF url dest anchors s).1 ≠ Res.exn PyErr.reqExc := by
  intro anchors
  induction anchors with
  | nil => intro s; simp [ddLinks]
  | cons a rest ih =>
    intro s
    match a with
    | none => simp [ddLinks]
    | some h =>
      simp only [ddLinks]
      split
      · exact ih s
      · split
        · rcases hc : recD (url ++ h) (pjoin dest h) (emit (Ev.logLine LogK.enteringDir)
            (if pjoin dest h ∈ s.dirs then s
             else { s with dirs := s.dirs ++ [pjoin dest h] })) with ⟨rr, rs⟩
          have hD1 := hD (url ++ h) (pjoin dest h) (emit (Ev.logLine LogK.enteringDir)
            (if pjoin dest h ∈ s.dirs then s
             else { s with dirs := s.dirs ++ [pjoin dest h] }))
          rw [hc] at hD1
          match rr with
          | Res.ok a => exact ih rs
          | Res.exn e =>
            intro hcontra
            exact hD1 (by simpa using hcontra)
          | Res.div => simp
        · rcases hc : recF (url ++ h) dest (emit (Ev.logLine LogK.downloadingFile) s)
            with ⟨rr, rs⟩
          have hF1 := hF (url ++ h) dest (emit (Ev.logLine LogK.downloadingFile) s)
          rw [hc] at hF1
          match rr with
          | Res.ok a => exact ih rs
          | Res.exn e =>
            intro hcontra
            exact hF1 (by simpa using hcontra)
          | Res.div => simp

/-- test.py's download_directory never ends in a RequestException. -/
theorem dd1_no_reqExc (env : Env) : ∀ (fuel : Nat) (url dest : String) (s : St),
    (T1.download_directory env fuel url dest s).1 ≠ Res.exn PyErr.reqExc := by
  intro fuel
  induction fuel with
  | zero => intro url dest s; simp [T1.download_directory]
  | succ fuel ih =>
    intro url dest s
    simp only [T1.download_directory, readCancel]
    cases hcan : env.cancel s.flagI
    · simp only []
      split
      next e s2 heq => exact ih url dest _
      next s2 heq => simp
      next status anchors s2 heq =>
        by_cases hst : status = 200
        · rw [if_pos hst]
          have hwalk := ddLinks_no_reqExc _ _ (fun u d t => ih u d t)
            (fun u d t => df1_no_reqExc env fuel u d t) url dest anchors s2
          split
          · rename_i s3 heq2
            exact ih url dest _
          · exact hwalk
        · rw [if_neg hst]
          simp
    · simp

/-- Pure counting bound for one listing page: one per file anchor, `B` of
the child URL per directory anchor, stopping at an href-less anchor. -/
def cntLinksB (url : String) (B : String → Nat) : List (Option String) → Nat
  | [] => 0
  | none :: _ => 0
  | some h :: rest =>
    if h = "../" ∨ h = "./" then cntLinksB url B rest
    else if endsWithSlash h then B (url ++ h) + cntLinksB url B rest
    else 1 + cntLinksB url B rest

/-- Pure counting bound of a subtree under a per-URL-deterministic listing
oracle `L`. -/
def cntB (L : String → ListingResp) : Nat → String → Nat
  | 0, _ => 0
  | fuel+1, url =>
    match L url with
    | ListingResp.netErr => 0
    | ListingResp.ok status anchors =>
      if status = 200 then cntLinksB url (fun u => cntB L fuel u) anchors else 0

theorem cntB_netErr {L : String → ListingResp} {url : String} (h : L url = ListingResp.netErr) :
    ∀ fuel, cntB L fuel url = 0 := by
  intro fuel
  cases fuel with
  | zero => rfl
  | succ fuel => simp [cntB, h]

theorem listingGet_ok_inv {env : Env} {url : String} {ua : Bool} {s : St}
    {st : Nat} {as : List (Option String)} {s' : St}
    (h : listingGet env url ua s = (Res.ok (st, as), s')) :
    env.listing url (s.listA url) = ListingResp.ok st as := by
  simp only [listingGet] at h
  cases hx : env.listing url (s.listA url) with
  | ok st2 as2 =>
    rw [hx] at h
    simp only [Prod.mk.injEq] at h
    obtain ⟨h1, _⟩ := h
    cases h1
    rfl
  | netErr =>
    rw [hx] at h
    simp at h

theorem listingGet_err_inv {env : Env} {url : String} {ua : Bool} {s : St}
    {e : PyErr} {s' : St} (h : listingGet env url ua s = (Res.exn e, s')) :
    env.listing url (s.listA url) = ListingResp.netErr := by
  simp only [listingGet] at h
  cases hx : env.listing url (s.listA url) with
  | ok st2 as2 =>
    rw [hx] at h
    simp at h
  | netErr => rfl

/-- Under stable listings, a successful count_files computes exactly the
pure bound `cntB`. -/
theorem count_val_cntB (env : Env) (hst : LStable env) :
    ∀ (fuel : Nat) (url : String) (s : St) (n : Nat),
      (count_files env fuel url s).1 = Res.ok n →
      n = cntB (fun u => env.listing u 0) fuel url := by
  intro fuel
  induction fuel with
  | zero =>
    intro url s n h
    simp [count_files] at h
  | succ fuel ih =>
    intro url s n h
    have hlinks : ∀ (anchors : List (Option String)) (acc : Nat) (s : St) (m : Nat),
        (countLinks url (fun u t => count_files env fuel u t) anchors acc s).1 = Res.ok m →
        m = acc + cntLinksB url (fun u => cntB (fun u' => env.listing u' 0) fuel u) anchors := by
      intro anchors
      induction anchors with
      | nil =>
        intro acc s m hm
        simp only [countLinks] at hm
        cases hm
        simp [cntLinksB]
      | cons a rest ihr =>
        intro acc s m hm
        match a with
        | none => simp [countLinks] at hm
        | some h2 =>
          simp only [countLinks] at hm
          by_cases hnav : h2 = "../" ∨ h2 = "./"
          · rw [if_pos hnav] at hm
            rw [ihr acc s m hm]
            simp [cntLinksB, hnav]
          · rw [if_neg hnav] at hm
            by_cases hd : endsWithSlash h2 = true
            · rw [if_pos hd] at hm
              rcases hc : count_files env fuel (url ++ h2) s with ⟨rr, rs⟩
              rw [hc] at hm
              match rr, hm with
              | Res.ok k, hm =>
                have hk : k = cntB (fun u' => env.listing u' 0) fuel (url ++ h2) := by
                  apply ih (url ++ h2) s k
                  rw [hc]
                rw [ihr (acc + k) rs m hm, hk]
                simp [cntLinksB, hnav, hd]
                omega
              | Res.exn PyErr.reqExc, hm =>
                exact absurd (by rw [hc] : (count_files env fuel (url ++ h2) s).1 =
                  Res.exn PyErr.reqExc) (count_no_reqExc env fuel (url ++ h2) s)
            · rw [if_neg hd] at hm
              rw [ihr (acc + 1) s m hm]
              have hd' : endsWithSlash h2 = false := by simpa using hd
              simp [cntLinksB, hnav, hd']
              omega
    simp only [count_files] at h
    split at h
    next e s1 heq =>
      cases h
      have hresp : env.listing url 0 = ListingResp.netErr := by
        rw [← hst url (s.listA url)]
        exact listingGet_err_inv heq
      simp [cntB, hresp]
    next s1 heq => simp at h
    next status anchors s1 heq =>
      have hresp : env.listing url 0 = ListingResp.ok status anchors := by
        rw [← hst url (s.listA url)]
        exact listingGet_ok_inv heq
      by_cases hstw : status = 200
      · rw [if_pos hstw] at h
        have := hlinks anchors 0 s1 n h
        simp only [cntB, hresp, hstw, if_pos]
        simpa using this
      · rw [if_neg hstw] at h
        cases h
        simp [cntB, hresp, hstw]

/-- The listing walk downloads at most the pure counting bound of the page:
at most one per file anchor and at most `B u` per directory anchor `u`. -/
theorem ddLinksBound (recD recF : String → String → St → Res Unit × St) (B : String → Nat)
    (hD : ∀ u d t, (recD u d t).2.downloaded_files ≤ t.downloaded_files + B u)
    (hF : ∀ u d t, (recF u d t).2.downloaded_files ≤ t.downloaded_files + 1)
    (url dest : String) :
    ∀ (anchors : List (Option String)) (s : St),
      (ddLinks recD recF url dest anchors s).2.downloaded_files ≤
        s.downloaded_files + cntLinksB url B anchors := by
  intro anchors
  induction anchors with
  | nil => intro s; simp [ddLinks, cntLinksB]
  | cons a rest ih =>
    intro s
    match a with
    | none => simp [ddLinks, cntLinksB]
    | some h =>
      simp only [ddLinks]
      by_cases hnav : h = "../" ∨ h = "./"
      · rw [if_pos hnav]
        calc (ddLinks recD recF url dest rest s).2.downloaded_files
            ≤ s.downloaded_files + cntLinksB url B rest := ih s
          _ = s.downloaded_files + cntLinksB url B (some h :: rest) := by
              simp [cntLinksB, hnav]
      · rw [if_neg hnav]
        by_cases hd : endsWithSlash h = true
        · rw [if_pos hd]
          have hcl : cntLinksB url B (some h :: rest) = B (url ++ h) + cntLinksB url B rest := by
            simp [cntLinksB, hnav, hd]
          rcases hc : recD (url ++ h) (pjoin dest h) (emit (Ev.logLine LogK.enteringDir)
            (if pjoin dest h ∈ s.dirs then s
             else { s with dirs := s.dirs ++ [pjoin dest h] })) with ⟨rr, rs⟩
          have hD1 := hD (url ++ h) (pjoin dest h) (emit (Ev.logLine LogK.enteringDir)
            (if pjoin dest h ∈ s.dirs then s
             else { s with dirs := s.dirs ++ [pjoin dest h] }))
          rw [hc] at hD1
          have hdl0 : (emit (Ev.logLine LogK.enteringDir)
              (if pjoin dest h ∈ s.dirs then s
               else { s with dirs := s.dirs ++ [pjoin dest h] })).downloaded_files =
              s.downloaded_files := by
            split <;> rfl
          rw [hdl0] at hD1
          have hD2 : rs.downloaded_files ≤ s.downloaded_files + B (url ++ h) := hD1
          match rr with
          | Res.ok a =>
            calc (ddLinks recD recF url dest rest rs).2.downloaded_files
                ≤ rs.downloaded_files + cntLinksB url B rest := ih rs
              _ ≤ s.downloaded_files + B (url ++ h) + cntLinksB url B rest := by omega
              _ = s.downloaded_files + cntLinksB url B (some h :: rest) := by
                  rw [hcl]; omega
          | Res.exn e =>
            show rs.downloaded_files ≤ s.downloaded_files + cntLinksB url B (some h :: rest)
            rw [hcl]
            omega
          | Res.div =>
            show rs.downloaded_files ≤ s.downloaded_files + cntLinksB url B (some h :: rest)
            rw [hcl]
            omega
        · rw [if_neg hd]
          have hcl : cntLinksB url B (some h :: rest) = 1 + cntLinksB url B rest := by
            have hd' : endsWithSlash h = false := by simpa using hd
            simp [cntLinksB, hnav, hd']
          rcases hc : recF (url ++ h) dest (emit (Ev.logLine LogK.downloadingFile) s)
            with ⟨rr, rs⟩
          have hF1 := hF (url ++ h) dest (emit (Ev.logLine LogK.downloadingFile) s)
          rw [hc] at hF1
          have hdl0 : (emit (Ev.logLine LogK.downloadingFile) s).downloaded_files =
              s.downloaded_files := rfl
          rw [hdl0] at hF1
          have hF2 : rs.downloaded_files ≤ s.downloaded_files + 1 := hF1
          match rr with
          | Res.ok a =>
            calc (ddLinks recD recF url dest rest rs).2.downloaded_files
                ≤ rs.downloaded_files + cntLinksB url B rest := ih rs
              _ ≤ s.downloaded_files + 1 + cntLinksB url B rest := by omega
              _ = s.downloaded_files + cntLinksB url B (some h :: rest) := by
                  rw [hcl]; omega
          | Res.exn e =>
            show rs.downloaded_files ≤ s.downloaded_files + cntLinksB url B (some h :: rest)
            rw [hcl]
            omega
          | Res.div =>
            show rs.downloaded_files ≤ s.downloaded_files + cntLinksB url B (some h :: rest)
            rw [hcl]
            omega

/-- Under stable listings, the crawl downloads at most the subtree's pure
counting bound. -/
theorem dd1_bound (env : Env) (hst : LStable env) :
    ∀ (fuel : Nat) (url dest : String) (s : St),
      (T1.download_directory env fuel url dest s).2.downloaded_files ≤
        s.downloaded_files + cntB (fun u => env.listing u 0) fuel url := by
  intro fuel
  induction fuel with
  | zero => intro url dest s; simp [T1.download_directory]
  | succ fuel ih =>
    intro url dest s
    simp only [T1.download_directory, readCancel]
    cases hcan : env.cancel s.flagI
    · simp only []
      split
      next e s2 heq =>
        have hresp : env.listing url 0 = ListingResp.netErr := by
          rw [← hst url (({ s with flagI := s.flagI + 1 } : St).listA url)]
          exact listingGet_err_inv heq
        have hs2 : (listingGet env url false { s with flagI := s.flagI + 1 }).2 = s2 := by
          rw [heq]
        rw [listingGet_snd] at hs2
        have hd2 : s2.downloaded_files = s.downloaded_files := by rw [← hs2]
        calc (T1.download_directory env fuel url dest _).2.downloaded_files
            ≤ _ + cntB (fun u => env.listing u 0) fuel url := ih url dest _
          _ = s.downloaded_files + 0 := by
              rw [cntB_netErr hresp fuel]
              simp [emit, hd2]
          _ ≤ s.downloaded_files + cntB (fun u => env.listing u 0) (fuel + 1) url := by omega
      next s2 heq =>
        have hs2 : (listingGet env url false { s with flagI := s.flagI + 1 }).2 = s2 := by
          rw [heq]
        rw [listingGet_snd] at hs2
        have hd2 : s2.downloaded_files = s.downloaded_files := by rw [← hs2]
        simp [hd2]
      next status anchors s2 heq =>
        have hresp : env.listing url 0 = ListingResp.ok status anchors := by
          rw [← hst url (({ s with flagI := s.flagI + 1 } : St).listA url)]
          exact listingGet_ok_inv heq
        have hs2 : (listingGet env url false { s with flagI := s.flagI + 1 }).2 = s2 := by
          rw [heq]
        rw [listingGet_snd] at hs2
        have hd2 : s2.downloaded_files = s.downloaded_files := by rw [← hs2]
        by_cases hstw : status = 200
        · rw [if_pos hstw]
          have hwalk := ddLinksBound _ _ (fun u => cntB (fun u' => env.listing u' 0) fuel u)
            (fun u d t => ih u d t)
            (fun u d t => (df1_all env fuel u d t).2.1) url dest anchors s2
          have hcnt : cntB (fun u => env.listing u 0) (fuel + 1) url =
              cntLinksB url (fun u => cntB (fun u' => env.listing u' 0) fuel u) anchors := by
            simp [cntB, hresp, hstw]
          split
          · rename_i s3 heq2
            exact absurd (by rw [heq2] : (ddLinks _ _ url dest anchors s2).1 =
                Res.exn PyErr.reqExc)
              (ddLinks_no_reqExc _ _ (fun u d t => dd1_no_reqExc env fuel u d t)
                (fun u d t => df1_no_reqExc env fuel u d t) url dest anchors s2)
          · rw [hcnt]
            calc (ddLinks _ _ url dest anchors s2).2.downloaded_files
                ≤ s2.downloaded_files + _ := hwalk
              _ = s.downloaded_files + _ := by rw [hd2]
        · rw [if_neg hstw]
          simp [emit, hd2]
    · simp [emit]

/-- Behaviour bundle of test.py's run body (count, emit total, crawl):
everything of the step relation except that total_files is set. -/
theorem runBody1_facts (env : Env) (fuel : Nat) (base dest : String) (s : St) :
    s.downloaded_files ≤ (T1.runBody env fuel base dest s).2.downloaded_files ∧
    s.flagI ≤ (T1.runBody env fuel base dest s).2.flagI ∧
    (∀ e, e ∈ s.events → e ∈ (T1.runBody env fuel base dest s).2.events) ∧
    (Ev.complete ∈ (T1.runBody env fuel base dest s).2.events → Ev.complete ∈ s.events) ∧
    (Ev.canceled ∈ (T1.runBody env fuel base dest s).2.events → Ev.canceled ∈ s.events ∨
      ∃ i, s.flagI ≤ i ∧ i < (T1.runBody env fuel base dest s).2.flagI ∧
        env.cancel i = true) := by
  simp only [T1.runBody]
  split
  next n s1 heqc =>
    have hcp : CPres s s1 := by
      have := count_all env fuel base s
      rw [heqc] at this
      exact this
    rcases hcp with ⟨c1, c2, c3, c4, c5, c6, c7, c8, c9, c10, c11⟩
    have hdd := dd1_all env fuel base dest (emit (Ev.fileCount n) { s1 with total_files := n })
    rcases hdd with ⟨d1, d2, d3, d4, d5, d6⟩
    refine ⟨?_, ?_, ?_, ?_, ?_⟩
    · calc s.downloaded_files = s1.downloaded_files := c1.symm
        _ = (emit (Ev.fileCount n) { s1 with total_files := n }).downloaded_files := rfl
        _ ≤ _ := d3
    · calc s.flagI = s1.flagI := c3.symm
        _ = (emit (Ev.fileCount n) { s1 with total_files := n }).flagI := rfl
        _ ≤ _ := d2
    · intro e he
      exact d4 e (by simp [emit]; exact Or.inl (c10 e he))
    · intro hm
      have h1 := d5 hm
      simp only [emit, List.mem_append] at h1
      rcases h1 with h1 | h1
      · rcases c11 _ h1 with h2 | ⟨u, h2⟩
        · exact h2
        · exact absurd h2 (by simp)
      · simp at h1
    · intro hm
      rcases d6 hm with h1 | ⟨i, hi1, hi2, hi3⟩
      · simp only [emit, List.mem_append] at h1
        rcases h1 with h1 | h1
        · rcases c11 _ h1 with h2 | ⟨u, h2⟩
          · exact Or.inl h2
          · exact absurd h2 (by simp)
        · simp at h1
      · right
        refine ⟨i, ?_, hi2, hi3⟩
        calc s.flagI = s1.flagI := c3.symm
          _ = (emit (Ev.fileCount n) { s1 with total_files := n }).flagI := rfl
          _ ≤ i := hi1
  next e s1 heqc =>
    have hcp : CPres s s1 := by
      have := count_all env fuel base s
      rw [heqc] at this
      exact this
    rcases hcp with ⟨c1, c2, c3, c4, c5, c6, c7, c8, c9, c10, c11⟩
    refine ⟨le_of_eq c1.symm, le_of_eq c3.symm, c10, ?_, ?_⟩
    · intro hm
      rcases c11 _ hm with h2 | ⟨u, h2⟩
      · exact h2
      · exact absurd h2 (by simp)
    · intro hm
      rcases c11 _ hm with h2 | ⟨u, h2⟩
      · exact Or.inl h2
      · exact absurd h2 (by simp)
  next s1 heqc =>
    have hcp : CPres s s1 := by
      have := count_all env fuel base s
      rw [heqc] at this
      exact this
    rcases hcp with ⟨c1, c2, c3, c4, c5, c6, c7, c8, c9, c10, c11⟩
    refine ⟨le_of_eq c1.symm, le_of_eq c3.symm, c10, ?_, ?_⟩
    · intro hm
      rcases c11 _ hm with h2 | ⟨u, h2⟩
      · exact h2
      · exact absurd h2 (by simp)
    · intro hm
      rcases c11 _ hm with h2 | ⟨u, h2⟩
      · exact Or.inl h2
      · exact absurd h2 (by simp)

/-- Under stable listings the run body keeps the crawl within the counted
total. -/
theorem runBody1_bound (env : Env) (hst : LStable env) (fuel : Nat)
    (base dest : String) (led : List String) :
    (T1.runBody env fuel base dest (initSt led)).2.downloaded_files ≤
      (T1.runBody env fuel base dest (initSt led)).2.total_files := by
  simp only [T1.runBody]
  split
  next n s1 heqc =>
    have hn : n = cntB (fun u => env.listing u 0) fuel base := by
      apply count_val_cntB env hst fuel base (initSt led) n
      rw [heqc]
    have hcp : CPres (initSt led) s1 := by
      have := count_all env fuel base (initSt led)
      rw [heqc] at this
      exact this
    have hd1 : s1.downloaded_files = 0 := by rw [hcp.1]; rfl
    have hbound := dd1_bound env hst fuel base dest
      (emit (Ev.fileCount n) { s1 with total_files := n })
    have htot : (T1.download_directory env fuel base dest
        (emit (Ev.fileCount n) { s1 with total_files := n })).2.total_files = n :=
      (dd1_all env fuel base dest _).1
    rw [htot]
    calc (T1.download_directory env fuel base dest _).2.downloaded_files
        ≤ (emit (Ev.fileCount n) { s1 with total_files := n }).downloaded_files +
            cntB (fun u => env.listing u 0) fuel base := hbound
      _ = n := by simp [emit, hd1, hn]
  next e s1 heqc =>
    have hcp : CPres (initSt led) s1 := by
      have := count_all env fuel base (initSt led)
      rw [heqc] at this
      exact this
    show s1.downloaded_files ≤ s1.total_files
    rw [hcp.1, hcp.2.1]
    exact le_refl _
  next s1 heqc =>
    have hcp : CPres (initSt led) s1 := by
      have := count_all env fuel base (initSt led)
      rw [heqc] at this
      exact this
    show s1.downloaded_files ≤ s1.total_files
    rw [hcp.1, hcp.2.1]
    exact le_refl _

/-- A stable one-file tree in which the crawl succeeds. -/
def envC2w : Env :=
  { listing := fun u _ =>
      if u = "r/" then ListingResp.ok 200 [some "a.txt"] else ListingResp.netErr
    stream := fun u _ =>
      if u = "r/a.txt" then StreamResp.ok ⟨200, none, 5, [5], false⟩
      else StreamResp.netErr
    cancel := fun _ => false }

/-- C2 (amended): downloadedFiles is non-decreasing across every
download_file call, every download_directory call and every run of
test.py; and when the listing oracle is stable across attempts (the same
URL always yields the same listing response), a directory-mode run from the
initial state ends with downloadedFiles at most totalFiles.  (With
attempt-varying listings the bound can fail, see the counterexample.) -/
theorem c2_downloaded_monotone_and_bounded (env : Env) (fuel : Nat)
    (base dest url dest2 : String) (led : List String) (s : St) :
    s.downloaded_files ≤ (T1.download_file env fuel url dest2 s).2.downloaded_files ∧
    s.downloaded_files ≤ (T1.download_directory env fuel url dest2 s).2.downloaded_files ∧
    s.downloaded_files ≤ (T1.run env fuel base dest s).2.downloaded_files ∧
    (LStable env →
      (T1.run env fuel base dest (initSt led)).2.downloaded_files ≤
        (T1.run env fuel base dest (initSt led)).2.total_files) := by
  refine ⟨((df1_all env fuel url dest2 s).1).2.2.1,
    ((dd1_all env fuel url dest2 s)).2.2.1, ?_, ?_⟩
  · rcases hb : T1.runBody env fuel base dest s with ⟨rb, sb⟩
    have hf := runBody1_facts env fuel base dest s
    rw [hb] at hf
    simp only [T1.run, hb, readCancel]
    cases rb with
    | ok a =>
      cases hcl : env.cancel sb.flagI
      · simp only [hcl]
        simpa [emit] using hf.1
      · simp only [hcl]
        simpa using hf.1
    | exn e => simpa [emit] using hf.1
    | div => simpa using hf.1
  · intro hst
    rcases hb : T1.runBody env fuel base dest (initSt led) with ⟨rb, sb⟩
    have hbd := runBody1_bound env hst fuel base dest led
    rw [hb] at hbd
    have hbd2 : sb.downloaded_files ≤ sb.total_files := hbd
    simp only [T1.run, hb, readCancel]
    cases rb with
    | ok a =>
      cases hcl : env.cancel sb.flagI
      · simp only [hcl]
        simpa [emit] using hbd2
      · simp only [hcl]
        simpa using hbd2
    | exn e => simpa [emit] using hbd2
    | div => simpa using hbd2

/-- Witness for C2's amended statement on a stable one-file tree. -/
theorem c2_witness :
    (initSt []).downloaded_files ≤
      (T1.download_file envC2w 10 "r/a.txt" "d" (initSt [])).2.downloaded_files ∧
    (initSt []).downloaded_files ≤
      (T1.download_directory envC2w 10 "r/a.txt" "d" (initSt [])).2.downloaded_files ∧
    (initSt []).downloaded_files ≤ (T1.run envC2w 10 "r/" "d" (initSt [])).2.downloaded_files ∧
    (T1.run envC2w 10 "r/" "d" (initSt [])).2.downloaded_files ≤
      (T1.run envC2w 10 "r/" "d" (initSt [])).2.total_files := by
  have h := c2_downloaded_monotone_and_bounded envC2w 10 "r/" "d" "r/a.txt" "d" [] (initSt [])
  exact ⟨h.1, h.2.1, h.2.2.1, h.2.2.2 (fun _ _ => rfl)⟩

/-- C4 (amended): under a monotone cancel flag (cancel, once set, is never
cleared) the two terminal notifications of a test.py run are mutually
exclusive — never both emitted — and the completed event is emitted only if
every cancel-flag read of the run returned unset.  (A run terminated by a
caught exception emits neither event, and a canceled run can emit the
canceled event more than once, so "exactly one fires" does not hold.) -/
theorem c4_terminal_events_amended (env : Env) (fuel : Nat) (base dest : String)
    (led : List String)
    (hmono : ∀ i j, i ≤ j → env.cancel i = true → env.cancel j = true) :
    ¬(Ev.complete ∈ (T1.run env fuel base dest (initSt led)).2.events ∧
      Ev.canceled ∈ (T1.run env fuel base dest (initSt led)).2.events) ∧
    (Ev.complete ∈ (T1.run env fuel base dest (initSt led)).2.events →
      ∀ i, i < (T1.run env fuel base dest (initSt led)).2.flagI →
        env.cancel i = false) := by
  rcases hb : T1.runBody env fuel base dest (initSt led) with ⟨rb, sb⟩
  have hf := runBody1_facts env fuel base dest (initSt led)
  rw [hb] at hf
  obtain ⟨hdl, hfl, hmem, hcompl, hcanc⟩ := hf
  have hcompl0 : Ev.complete ∉ sb.events := fun h => by simpa [initSt] using hcompl h
  have hcanc0 : Ev.canceled ∈ sb.events → ∃ i, i < sb.flagI ∧ env.cancel i = true := by
    intro h
    rcases hcanc h with h1 | ⟨i, _, hi2, hi3⟩
    · simp [initSt] at h1
    · exact ⟨i, hi2, hi3⟩
  simp only [T1.run, hb, readCancel]
  cases rb with
  | ok a =>
    cases hcl : env.cancel sb.flagI
    · simp only [hcl]
      constructor
      · rintro ⟨_, h2⟩
        have h2' : Ev.canceled ∈ sb.events := by simpa [emit] using h2
        rcases hcanc0 h2' with ⟨i, hi1, hi2⟩
        have := hmono i sb.flagI (le_of_lt hi1) hi2
        simp [hcl] at this
      · intro _ i hi
        have hi' : i ≤ sb.flagI := by
          simp only [emit] at hi
          omega
        by_contra hne
        have htrue : env.cancel i = true := by
          cases hx : env.cancel i
          · exact absurd hx hne
          · rfl
        have := hmono i sb.flagI hi' htrue
        simp [hcl] at this
    · simp only [hcl]
      constructor
      · rintro ⟨h1, _⟩
        exact hcompl0 (by simpa using h1)
      · intro h1
        exact absurd (by simpa using h1 : Ev.complete ∈ sb.events) hcompl0
  | exn e =>
    constructor
    · rintro ⟨h1, _⟩
      exact hcompl0 (by simpa [emit] using h1)
    · intro h1
      exact absurd (by simpa [emit] using h1 : Ev.complete ∈ sb.events) hcompl0
  | div =>
    constructor
    · rintro ⟨h1, _⟩
      exact hcompl0 (by simpa using h1)
    · intro h1
      exact absurd (by simpa using h1 : Ev.complete ∈ sb.events) hcompl0

/-- Witness for C4's amended statement on a successful run with cancel
never issued. -/
theorem c4_witness :
    ¬(Ev.complete ∈ (T1.run envC2w 10 "r/" "d" (initSt [])).2.events ∧
      Ev.canceled ∈ (T1.run envC2w 10 "r/" "d" (initSt [])).2.events) ∧
    (Ev.complete ∈ (T1.run envC2w 10 "r/" "d" (initSt [])).2.events →
      ∀ i, i < (T1.run envC2w 10 "r/" "d" (initSt [])).2.flagI →
        envC2w.cancel i = false) :=
  c4_terminal_events_amended envC2w 10 "r/" "d" [] (fun _ _ _ h => h)

/-- C5: a test-3 single-file run whose transfer observes the (monotone)
cancel flag — that is, in which the canceled event is emitted — never emits
the completed event, and the in-flight file's destination path is added
neither to the in-memory completed set nor to the persisted ledger: both
still equal the loaded ledger. -/
theorem c5_cancel_mid_stream (env : Env) (fuel : Nat)
    (url dest username password : String) (led : List String)
    (hmono : ∀ i j, i ≤ j → env.cancel i = true → env.cancel j = true)
    (hm : Ev.canceled ∈
      (T3.run env fuel true url dest username password (initSt led)).2.events) :
    Ev.complete ∉ (T3.run env fuel true url dest username password (initSt led)).2.events ∧
    (T3.run env fuel true url dest username password (initSt led)).2.ledger = led ∧
    (T3.run env fuel true url dest username password (initSt led)).2.completed_files = led := by
  rcases hb : T3.runBody env fuel true url dest username password (initSt led) with ⟨rb, sb⟩
  have hb2 : T3.download_file env fuel url dest username password (initSt led) = (rb, sb) := by
    simpa [T3.runBody] using hb
  have hdf := df3_all env fuel url dest username password (initSt led)
  rw [hb2] at hdf
  obtain ⟨⟨htf, hfl, hdl, hmem, hcompl, hcanc⟩, hle, hcl⟩ := hdf
  have hcompl0 : Ev.complete ∉ sb.events := fun h => by simpa [initSt] using hcompl h
  have hled : Ev.canceled ∈ sb.events → sb.ledger = led ∧ sb.completed_files = led := by
    intro h
    rcases hcl h with h1 | ⟨h1, h2⟩
    · simp [initSt] at h1
    · exact ⟨by simpa [initSt] using h1, by simpa [initSt] using h2⟩
  simp only [T3.run, readCancel] at hm ⊢
  rw [hb] at hm ⊢
  cases rb with
  | ok a =>
    cases hcl2 : env.cancel sb.flagI
    · simp only [hcl2] at hm ⊢
      have hm' : Ev.canceled ∈ sb.events := by simpa [emit] using hm
      exfalso
      rcases hcanc hm' with h1 | ⟨i, _, hi2, hi3⟩
      · simp [initSt] at h1
      · have hi2' : i < sb.flagI := hi2
        have := hmono i sb.flagI (by omega) hi3
        simp [hcl2] at this
    · simp only [hcl2] at hm ⊢
      have hm' : Ev.canceled ∈ sb.events := by simpa using hm
      refine ⟨fun h => hcompl0 (by simpa using h), ?_, ?_⟩
      · simpa using (hled hm').1
      · simpa using (hled hm').2
  | exn e =>
    have hm' : Ev.canceled ∈ sb.events := by simpa [emit] using hm
    refine ⟨fun h => hcompl0 (by simpa [emit] using h), ?_, ?_⟩
    · simpa [emit] using (hled hm').1
    · simpa [emit] using (hled hm').2
  | div =>
    have hm' : Ev.canceled ∈ sb.events := by simpa using hm
    refine ⟨fun h => hcompl0 (by simpa using h), ?_, ?_⟩
    · simpa using (hled hm').1
    · simpa using (hled hm').2

/-- A 200 response with two chunks, the cancel flag set from the third
flag read on (i.e. observed after the first chunk is written). -/
def envC5w : Env :=
  { listing := fun _ _ => ListingResp.netErr
    stream := fun _ _ => StreamResp.ok ⟨200, none, 5, [3, 2], false⟩
    cancel := fun i => decide (2 ≤ i) }

/-- Witness for C5: the concrete mid-stream cancellation. -/
theorem c5_witness :
    Ev.complete ∉ (T3.run envC5w 9 true "h/f.bin" "d" "" "" (initSt [])).2.events ∧
    (T3.run envC5w 9 true "h/f.bin" "d" "" "" (initSt [])).2.ledger = [] ∧
    (T3.run envC5w 9 true "h/f.bin" "d" "" "" (initSt [])).2.completed_files = [] := by
  apply c5_cancel_mid_stream envC5w 9 "h/f.bin" "d" "" "" []
  · intro i j hij hi
    simp only [envC5w, decide_eq_true_eq] at hi ⊢
    omega
  · decide

/-- All anchors of every listing served by the oracle carry an href. -/
def AllSome (env : Env) : Prop :=
  ∀ u a st anchors, env.listing u a = ListingResp.ok st anchors → none ∉ anchors

/-- The chunk loop raises only ZeroDivisionError or RequestException. -/
theorem chunkLoop_exn (env : Env) (bf : Bool) (fsize : Nat) :
    ∀ chunks bytes s e, (chunkLoop env bf fsize chunks bytes s).1 = Res.exn e →
      e = PyErr.zeroDiv ∨ e = PyErr.reqExc := by
  intro chunks
  induction chunks with
  | nil =>
    intro bytes s e h
    cases bf <;> simp [chunkLoop] at h
    · exact Or.inr h.symm
  | cons c rest ih =>
    intro bytes s e h
    simp only [chunkLoop] at h
    by_cases hc : c = 0
    · rw [if_pos hc] at h
      simp only [readCancel] at h
      cases hcan : env.cancel s.flagI
      · rw [hcan] at h
        exact ih bytes _ e h
      · rw [hcan] at h
        simp at h
    · rw [if_neg hc] at h
      by_cases hf : fsize = 0
      · rw [if_pos hf] at h
        simp at h
        exact Or.inl h.symm
      · rw [if_neg hf] at h
        simp only [readCancel] at h
        cases hcan : env.cancel (emit (Ev.fileProgress ((bytes + c) * 100 / fsize))
            (emit (Ev.fileWrite c) s)).flagI
        · rw [hcan] at h
          exact ih (bytes + c) _ e h
        · rw [hcan] at h
          simp at h

/-- test.py's post-success tail raises only ZeroDivisionError. -/
theorem postOk1_exn (fsize bytes : Nat) (fp : String) (s : St) (e : PyErr)
    (h : (T1.postOk fsize bytes fp s).1 = Res.exn e) : e = PyErr.zeroDiv := by
  simp only [T1.postOk] at h
  by_cases h1 : fsize > 0 ∧ bytes = 0
  · rw [if_pos h1] at h
    simpa using h.symm
  · rw [if_neg h1] at h
    by_cases h3 : (if fsize > 0 then emit Ev.timeRemaining
        { s with downloaded_files := s.downloaded_files + 1
                 total_size := s.total_size + fsize }
      else { s with downloaded_files := s.downloaded_files + 1
                    total_size := s.total_size + fsize }).total_files = 0
    · rw [if_pos h3] at h
      simpa using h.symm
    · rw [if_neg h3] at h
      simp at h

/-- test.py's download_file never raises a TypeError. -/
theorem dfLoop1_no_typeErr (env : Env) : ∀ (fuel : Nat) (url fp : String) (s : St),
    (T1.dfLoop env fuel url fp s).1 ≠ Res.exn PyErr.typeErr := by
  intro fuel
  induction fuel with
  | zero => intro url fp s; simp [T1.dfLoop]
  | succ fuel ih =>
    intro url fp s
    simp only [T1.dfLoop, readCancel]
    cases hcan : env.cancel s.flagI
    · simp only []
      split
      next e s2 heq => exact ih url fp _
      next s2 heq => simp
      next r s2 heq =>
        by_cases hst : r.status = 200
        · rw [if_pos hst]
          rcases hck : chunkLoop env r.bodyFail r.contentLength r.chunks 0 s2 with ⟨cr, cs⟩
          match cr with
          | Res.ok (CkOut.done bytes) =>
            intro hcontra
            have hcontra2 : (T1.postOk r.contentLength bytes fp cs).1 =
                Res.exn PyErr.typeErr := hcontra
            have := postOk1_exn r.contentLength bytes fp cs PyErr.typeErr hcontra2
            simp at this
          | Res.ok CkOut.stop => simp
          | Res.exn PyErr.reqExc => exact ih url fp _
          | Res.exn PyErr.zeroDiv => simp
          | Res.exn PyErr.typeErr =>
            have := chunkLoop_exn env r.bodyFail r.contentLength r.chunks 0 s2 PyErr.typeErr
              (by rw [hck])
            simp at this
          | Res.exn PyErr.keyErr => simp
          | Res.div => simp
        · rw [if_neg hst]
          simp
    · simp

theorem df1_no_typeErr (env : Env) (fuel : Nat) (url dest : String) (s : St) :
    (T1.download_file env fuel url dest s).1 ≠ Res.exn PyErr.typeErr := by
  simp only [T1.download_file, readCancel]
  cases hcan : env.cancel s.flagI
  · simp only []
    by_cases hmem : pjoin dest (afterLastSlash url) ∈ s.completed_files
    · rw [if_pos (by simpa using hmem)]
      simp
    · rw [if_neg (by simpa using hmem)]
      exact dfLoop1_no_typeErr env fuel url _ _
  · simp

/-- The counting walk raises nothing when every anchor has an href and the
recursive calls raise nothing. -/
theorem countLinks_no_exn (url : String) (rec : String → St → Res Nat × St)
    (hrec : ∀ u t e, (rec u t).1 ≠ Res.exn e) :
    ∀ (anchors : List (Option String)), none ∉ anchors →
      ∀ (acc : Nat) (s : St) (e : PyErr),
        (countLinks url rec anchors acc s).1 ≠ Res.exn e := by
  intro anchors
  induction anchors with
  | nil => intro _ acc s e; simp [countLinks]
  | cons a rest ih =>
    intro hnone acc s e
    match a with
    | none => exact absurd (by simp) hnone
    | some h =>
      have hnone' : none ∉ rest := fun hh => hnone (by simp [hh])
      simp only [countLinks]
      split
      · exact ih hnone' acc s e
      · split
        · rcases hc : rec (url ++ h) s with ⟨rr, rs⟩
          have hr1 := hrec (url ++ h) s
          match rr with
          | Res.ok n => exact ih hnone' (acc + n) rs e
          | Res.exn PyErr.reqExc => simp
          | Res.exn PyErr.zeroDiv =>
            exact absurd (by rw [hc]) (hr1 PyErr.zeroDiv)
          | Res.exn PyErr.typeErr =>
            exact absurd (by rw [hc]) (hr1 PyErr.typeErr)
          | Res.exn PyErr.keyErr =>
            exact absurd (by rw [hc]) (hr1 PyErr.keyErr)
          | Res.div => simp
        · exact ih hnone' (acc + 1) s e

/-- When every served anchor has an href, count_files is total up to fuel:
it never ends in an uncaught exception. -/
theorem count_no_exn (env : Env) (hall : AllSome env) :
    ∀ (fuel : Nat) (url : String) (s : St) (e : PyErr),
      (count_files env fuel url s).1 ≠ Res.exn e := by
  intro fuel
  induction fuel with
  | zero => intro url s e; simp [count_files]
  | succ fuel ih =>
    intro url s e
    simp only [count_files]
    split
    next e2 s1 heq => simp
    next s1 heq => simp
    next status anchors s1 heq =>
      have hnone : none ∉ anchors :=
        hall url _ status anchors (listingGet_ok_inv heq)
      split
      · exact countLinks_no_exn url _ (fun u t e2 => ih u t e2) anchors hnone 0 s1 e
      · simp

/-- The crawl's listing walk raises no TypeError when every anchor has an
href and the delegates raise none. -/
theorem ddLinks_no_typeErr (recD recF : String → String → St → Res Unit × St)
    (hD : ∀ u d t, (recD u d t).1 ≠ Res.exn PyErr.typeErr)
    (hF : ∀ u d t, (recF u d t).1 ≠ Res.exn PyErr.typeErr) (url dest : String) :
    ∀ (anchors : List (Option String)), none ∉ anchors →
      ∀ (s : St), (ddLinks recD recF url dest anchors s).1 ≠ Res.exn PyErr.typeErr := by
  intro anchors
  induction anchors with
  | nil => intro _ s; simp [ddLinks]
  | cons a rest ih =>
    intro hnone s
    match a with
    | none => exact absurd (by simp) hnone
    | some h =>
      have hnone' : none ∉ rest := fun hh => hnone (by simp [hh])
      simp only [ddLinks]
      split
      · exact ih hnone' s
      · split
        · rcases hc : recD (url ++ h) (pjoin dest h) (emit (Ev.logLine LogK.enteringDir)
            (if pjoin dest h ∈ s.dirs then s
             else { s with dirs := s.dirs ++ [pjoin dest h] })) with ⟨rr, rs⟩
          have hD1 := hD (url ++ h) (pjoin dest h) (emit (Ev.logLine LogK.enteringDir)
            (if pjoin dest h ∈ s.dirs then s
             else { s with dirs := s.dirs ++ [pjoin dest h] }))
          rw [hc] at hD1
          match rr with
          | Res.ok a2 => exact ih hnone' rs
          | Res.exn e2 =>
            intro hcontra
            exact hD1 (by simpa using hcontra)
          | Res.div => simp
        · rcases hc : recF (url ++ h) dest (emit (Ev.logLine LogK.downloadingFile) s)
            with ⟨rr, rs⟩
          have hF1 := hF (url ++ h) dest (emit (Ev.logLine LogK.downloadingFile) s)
          rw [hc] at hF1
          match rr with
          | Res.ok a2 => exact ih hnone' rs
          | Res.exn e2 =>
            intro hcontra
            exact hF1 (by simpa using hcontra)
          | Res.div => simp

/-- When every served anchor has an href, test.py's download_directory never
raises a TypeError. -/
theorem dd1_no_typeErr (env : Env) (hall : AllSome env) :
    ∀ (fuel : Nat) (url dest : String) (s : St),
      (T1.download_directory env fuel url dest s).1 ≠ Res.exn PyErr.typeErr := by
  intro fuel
  induction fuel with
  | zero => intro url dest s; simp [T1.download_directory]
  | succ fuel ih =>
    intro url dest s
    simp only [T1.download_directory, readCancel]
    cases hcan : env.cancel s.flagI
    · simp only []
      split
      next e s2 heq => exact ih url dest _
      next s2 heq => simp
      next status anchors s2 heq =>
        have hnone : none ∉ anchors :=
          hall url _ status anchors (listingGet_ok_inv heq)
        by_cases hst : status = 200
        · rw [if_pos hst]
          have hwalk := ddLinks_no_typeErr _ _ (fun u d t => ih u d t)
            (fun u d t => df1_no_typeErr env fuel u d t) url dest anchors hnone s2
          split
          · rename_i s3 heq2
            exact ih url dest _
          · exact hwalk
        · rw [if_neg hst]
          simp
    · simp

/-- C8 (amended): listing processing is total on pages whose anchors all
carry an href attribute: counting never raises, and the crawl's listing
processing never raises the TypeError; an anchor *lacking* href, however,
raises a TypeError from `url + None` (see the counterexample). -/
theorem c8_href_total (env : Env) (hall : AllSome env) (fuel : Nat)
    (url dest : String) (s : St) :
    (∀ e, (count_files env fuel url s).1 ≠ Res.exn e) ∧
    (T1.download_directory env fuel url dest s).1 ≠ Res.exn PyErr.typeErr :=
  ⟨fun e => count_no_exn env hall fuel url s e, dd1_no_typeErr env hall fuel url dest s⟩

/-- Witness for C8's amended statement on a one-file listing with href. -/
theorem c8_witness :
    (∀ e, (count_files envC2w 5 "r/" (initSt [])).1 ≠ Res.exn e) ∧
    (T1.download_directory envC2w 5 "r/" "d" (initSt [])).1 ≠ Res.exn PyErr.typeErr := by
  apply c8_href_total envC2w ?_ 5 "r/" "d" (initSt [])
  intro u a st anchors h
  simp only [envC2w] at h
  by_cases hu : u = "r/"
  · rw [if_pos hu] at h
    cases h
    simp
  · rw [if_neg hu] at h
    cases h

/-- The User-Agent discipline of test-3: stream opens carry the header,
listing fetches never do; all other events are unconstrained. -/
def UaOK : Ev → Prop
  | Ev.reqStream _ ua _ => ua = true
  | Ev.reqListing _ ua => ua = false
  | _ => True

theorem chunkUa (env : Env) (bf : Bool) (fsize : Nat) :
    ∀ chunks bytes s e, e ∈ (chunkLoop env bf fsize chunks bytes s).2.events →
      e ∈ s.events ∨ UaOK e := by
  intro chunks
  induction chunks with
  | nil =>
    intro bytes s e h
    cases bf <;> simp only [chunkLoop] at h <;> exact Or.inl h
  | cons c rest ih =>
    intro bytes s e h
    simp only [chunkLoop] at h
    by_cases hc : c = 0
    · rw [if_pos hc] at h
      simp only [readCancel] at h
      cases hcan : env.cancel s.flagI
      · simp only [hcan] at h
        rcases ih bytes _ e h with h1 | h1
        · exact Or.inl h1
        · exact Or.inr h1
      · simp only [hcan] at h
        simp only [emit, List.mem_append] at h
        rcases h with h | h
        · exact Or.inl h
        · right
          simp only [List.mem_singleton] at h
          subst h
          trivial
    · rw [if_neg hc] at h
      by_cases hf : fsize = 0
      · rw [if_pos hf] at h
        simp only [emit, List.mem_append] at h
        rcases h with h | h
        · exact Or.inl h
        · right
          simp only [List.mem_singleton] at h
          subst h
          trivial
      · rw [if_neg hf] at h
        simp only [readCancel] at h
        cases hcan : env.cancel (emit (Ev.fileProgress ((bytes + c) * 100 / fsize))
            (emit (Ev.fileWrite c) s)).flagI
        · simp only [hcan] at h
          rcases ih (bytes + c) _ e h with h1 | h1
          · simp only [emit, List.mem_append] at h1
            rcases h1 with (h1 | h1) | h1
            · exact Or.inl h1
            · right
              simp only [List.mem_singleton] at h1
              subst h1
              trivial
            · right
              simp only [List.mem_singleton] at h1
              subst h1
              trivial
          · exact Or.inr h1
        · simp only [hcan] at h
          simp only [emit, List.mem_append] at h
          rcases h with ((h | h) | h) | h
          · exact Or.inl h
          all_goals
            right
            simp only [List.mem_singleton] at h
            subst h
            trivial

theorem postOk3Ua (fsize bytes : Nat) (fp : String) (s : St) :
    ∀ e, e ∈ (T3.postOk fsize bytes fp s).2.events → e ∈ s.events ∨ UaOK e := by
  intro e h
  simp only [T3.postOk] at h
  by_cases h1 : fsize > 0 ∧ bytes = 0
  · rw [if_pos h1] at h
    exact Or.inl h
  · rw [if_neg h1] at h
    by_cases h2 : fsize > 0
    · rw [if_pos h2] at h
      simp only [emit, List.mem_append] at h
      rcases h with ((h | h) | h) | h
      · exact Or.inl h
      all_goals
        right
        simp only [List.mem_singleton] at h
        subst h
        trivial
    · rw [if_neg h2] at h
      simp only [emit, List.mem_append] at h
      rcases h with (h | h) | h
      · exact Or.inl h
      all_goals
        right
        simp only [List.mem_singleton] at h
        subst h
        trivial

theorem dfLoop3Ua (env : Env) (auth : Bool) :
    ∀ (fuel : Nat) (url fp : String) (s : St) (e : Ev),
      e ∈ (T3.dfLoop env auth fuel url fp s).2.events → e ∈ s.events ∨ UaOK e := by
  intro fuel
  induction fuel with
  | zero => intro url fp s e h; exact Or.inl h
  | succ fuel ih =>
    intro url fp s e h
    have hbase : ∀ (e2 : Ev) (t : St), e2 ∈ t.events →
        (t.events = s.events ++ [Ev.reqStream url true auth] ∨
         t.events = s.events ++ [Ev.reqStream url true auth, Ev.logLine LogK.redirectMsg]) →
        e2 ∈ s.events ∨ UaOK e2 := by
      intro e2 t het hsh
      rcases hsh with hsh | hsh <;> rw [hsh] at het <;>
        simp only [List.mem_append] at het <;> rcases het with het | het
      · exact Or.inl het
      · right
        simp only [List.mem_singleton] at het
        subst het
        trivial
      · exact Or.inl het
      · right
        rcases List.mem_cons.mp het with het | het
        · subst het; trivial
        · simp only [List.mem_singleton] at het
          subst het
          trivial
    simp only [T3.dfLoop, readCancel] at h
    cases hcan : env.cancel s.flagI
    · simp only [hcan] at h
      revert h
      split
      next e2 s2 heq =>
        intro h
        have hs2 : (streamGet env url true auth { s with flagI := s.flagI + 1 }).2 = s2 := by
          rw [heq]
        rw [streamGet_snd] at hs2
        have he2 : s2.events = s.events ++ [Ev.reqStream url true auth] := by rw [← hs2]
        rcases ih url fp _ e h with h1 | h1
        · simp only [emit, List.mem_append] at h1
          rcases h1 with (h1 | h1) | h1
          · exact hbase e s2 h1 (Or.inl he2)
          all_goals
            right
            simp only [List.mem_singleton] at h1
            subst h1
            trivial
        · exact Or.inr h1
      next s2 heq =>
        intro h
        have hs2 : (streamGet env url true auth { s with flagI := s.flagI + 1 }).2 = s2 := by
          rw [heq]
        rw [streamGet_snd] at hs2
        have he2 : s2.events = s.events ++ [Ev.reqStream url true auth] := by rw [← hs2]
        exact hbase e s2 h (Or.inl he2)
      next r s2 heq =>
        intro h
        have hs2 : (streamGet env url true auth { s with flagI := s.flagI + 1 }).2 = s2 := by
          rw [heq]
        rw [streamGet_snd] at hs2
        have he2 : s2.events = s.events ++ [Ev.reqStream url true auth] := by rw [← hs2]
        have hmem2 : ∀ e2, e2 ∈ s2.events → e2 ∈ s.events ∨ UaOK e2 := by
          intro e2 he
          exact hbase e2 s2 he (Or.inl he2)
      -- continue by cases on the status
        revert h
        by_cases h302 : r.status = 302
        · rw [if_pos h302]
          cases hloc : r.location with
          | none =>
            intro h
            exact hmem2 e h
          | some l =>
            intro h
            rcases ih l fp _ e h with h1 | h1
            · simp only [emit, List.mem_append] at h1
              rcases h1 with h1 | h1
              · exact hmem2 e h1
              · right
                simp only [List.mem_singleton] at h1
                subst h1
                trivial
            · exact Or.inr h1
        · rw [if_neg h302]
          by_cases hst : r.status = 200
          · rw [if_pos hst]
            split
            next bytes s3 hck =>
              intro h
              have hck2 : (chunkLoop env r.bodyFail r.contentLength r.chunks 0 s2).2 = s3 := by
                rw [hck]
              have hmem3 : ∀ e2, e2 ∈ s3.events → e2 ∈ s.events ∨ UaOK e2 := by
                intro e2 he
                have he3 : e2 ∈ (chunkLoop env r.bodyFail r.contentLength
                    r.chunks 0 s2).2.events := by
                  rw [hck2]; exact he
                rcases chunkUa env r.bodyFail r.contentLength r.chunks 0 s2 e2 he3 with h2 | h2
                · exact hmem2 e2 h2
                · exact Or.inr h2
              rcases postOk3Ua r.contentLength bytes fp s3 e h with h1 | h1
              · exact hmem3 e h1
              · exact Or.inr h1
            next s3 hck =>
              intro h
              have hck2 : (chunkLoop env r.bodyFail r.contentLength r.chunks 0 s2).2 = s3 := by
                rw [hck]
              have he3 : e ∈ (chunkLoop env r.bodyFail r.contentLength
                  r.chunks 0 s2).2.events := by
                rw [hck2]; exact h
              rcases chunkUa env r.bodyFail r.contentLength r.chunks 0 s2 e he3 with h2 | h2
              · exact hmem2 e h2
              · exact Or.inr h2
            next s3 hck =>
              intro h
              have hck2 : (chunkLoop env r.bodyFail r.contentLength r.chunks 0 s2).2 = s3 := by
                rw [hck]
              have hmem3 : ∀ e2, e2 ∈ s3.events → e2 ∈ s.events ∨ UaOK e2 := by
                intro e2 he
                have he3 : e2 ∈ (chunkLoop env r.bodyFail r.contentLength
                    r.chunks 0 s2).2.events := by
                  rw [hck2]; exact he
                rcases chunkUa env r.bodyFail r.contentLength r.chunks 0 s2 e2 he3 with h2 | h2
                · exact hmem2 e2 h2
                · exact Or.inr h2
              rcases ih url fp _ e h with h1 | h1
              · simp only [emit, List.mem_append] at h1
                rcases h1 with (h1 | h1) | h1
                · exact hmem3 e h1
                all_goals
                  right
                  simp only [List.mem_singleton] at h1
                  subst h1
                  trivial
              · exact Or.inr h1
            next e2 s3 hne hck =>
              intro h
              have hck2 : (chunkLoop env r.bodyFail r.contentLength r.chunks 0 s2).2 = s3 := by
                rw [hck]
              have he3 : e ∈ (chunkLoop env r.bodyFail r.contentLength
                  r.chunks 0 s2).2.events := by
                rw [hck2]; exact h
              rcases chunkUa env r.bodyFail r.contentLength r.chunks 0 s2 e he3 with h2 | h2
              · exact hmem2 e h2
              · exact Or.inr h2
            next s3 hck =>
              intro h
              have hck2 : (chunkLoop env r.bodyFail r.contentLength r.chunks 0 s2).2 = s3 := by
                rw [hck]
              have he3 : e ∈ (chunkLoop env r.bodyFail r.contentLength
                  r.chunks 0 s2).2.events := by
                rw [hck2]; exact h
              rcases chunkUa env r.bodyFail r.contentLength r.chunks 0 s2 e he3 with h2 | h2
              · exact hmem2 e h2
              · exact Or.inr h2
          · rw [if_neg hst]
            intro h
            simp only [emit, List.mem_append] at h
            rcases h with h | h
            · exact hmem2 e h
            · right
              simp only [List.mem_singleton] at h
              subst h
              trivial
    · simp only [hcan] at h
      simp only [emit, List.mem_append] at h
      rcases h with h | h
      · exact Or.inl h
      · right
        simp only [List.mem_singleton] at h
        subst h
        trivial

theorem df3Ua (env : Env) (fuel : Nat) (url dest username password : String) (s : St) :
    ∀ e, e ∈ (T3.download_file env fuel url dest username password s).2.events →
      e ∈ s.events ∨ UaOK e := by
  intro e h
  simp only [T3.download_file, readCancel] at h
  cases hcan : env.cancel s.flagI
  · simp only [hcan] at h
    by_cases hmem : pjoin dest (afterLastSlash url) ∈ s.completed_files
    · rw [if_pos (by simpa using hmem)] at h
      simp only [emit, List.mem_append] at h
      rcases h with h | h
      · exact Or.inl h
      · right
        simp only [List.mem_singleton] at h
        subst h
        trivial
    · rw [if_neg (by simpa using hmem)] at h
      rcases dfLoop3Ua env (username != "" && password != "") fuel url
        (pjoin dest (afterLastSlash url)) { s with flagI := s.flagI + 1 } e h with h1 | h1
      · exact Or.inl h1
      · exact Or.inr h1
  · simp only [hcan] at h
    simp only [emit, List.mem_append] at h
    rcases h with h | h
    · exact Or.inl h
    · right
      simp only [List.mem_singleton] at h
      subst h
      trivial

theorem ddLinksUa (recD recF : String → String → St → Res Unit × St)
    (hD : ∀ u d t e, e ∈ (recD u d t).2.events → e ∈ t.events ∨ UaOK e)
    (hF : ∀ u d t e, e ∈ (recF u d t).2.events → e ∈ t.events ∨ UaOK e)
    (url dest : String) :
    ∀ (anchors : List (Option String)) (s : St) (e : Ev),
      e ∈ (ddLinks recD recF url dest anchors s).2.events → e ∈ s.events ∨ UaOK e := by
  intro anchors
  induction anchors with
  | nil => intro s e h; exact Or.inl h
  | cons a rest ih =>
    intro s e h
    match a with
    | none => exact Or.inl h
    | some h2 =>
      simp only [ddLinks] at h
      revert h
      split
      · intro h
        exact ih s e h
      · split
        · have hev : (emit (Ev.logLine LogK.enteringDir)
              (if pjoin dest h2 ∈ s.dirs then s
               else { s with dirs := s.dirs ++ [pjoin dest h2] })).events =
              s.events ++ [Ev.logLine LogK.enteringDir] := by
            split <;> rfl
          have hstep : ∀ e2, e2 ∈ (emit (Ev.logLine LogK.enteringDir)
              (if pjoin dest h2 ∈ s.dirs then s
               else { s with dirs := s.dirs ++ [pjoin dest h2] })).events →
              e2 ∈ s.events ∨ UaOK e2 := by
            intro e2 he
            rw [hev] at he
            simp only [List.mem_append] at he
            rcases he with he | he
            · exact Or.inl he
            · right
              simp only [List.mem_singleton] at he
              subst he
              trivial
          split
          · rename_i s3 heq
            intro h
            have hs3 : (recD (url ++ h2) (pjoin dest h2)
                (emit (Ev.logLine LogK.enteringDir)
                  (if pjoin dest h2 ∈ s.dirs then s
                   else { s with dirs := s.dirs ++ [pjoin dest h2] }))).2 = s3 := by
              rw [heq]
            rcases ih s3 e h with h1 | h1
            · have he3 : e ∈ (recD (url ++ h2) (pjoin dest h2)
                  (emit (Ev.logLine LogK.enteringDir)
                    (if pjoin dest h2 ∈ s.dirs then s
                     else { s with dirs := s.dirs ++ [pjoin dest h2] }))).2.events := by
                rw [hs3]; exact h1
              rcases hD (url ++ h2) (pjoin dest h2) _ e he3 with h3 | h3
              · exact hstep e h3
              · exact Or.inr h3
            · exact Or.inr h1
          · intro h
            rcases hD (url ++ h2) (pjoin dest h2) _ e h with h3 | h3
            · exact hstep e h3
            · exact Or.inr h3
        · have hstep : ∀ e2, e2 ∈ (emit (Ev.logLine LogK.downloadingFile) s).events →
              e2 ∈ s.events ∨ UaOK e2 := by
            intro e2 he
            simp only [emit, List.mem_append] at he
            rcases he with he | he
            · exact Or.inl he
            · right
              simp only [List.mem_singleton] at he
              subst he
              trivial
          split
          · rename_i s3 heq
            intro h
            have hs3 : (recF (url ++ h2) dest
                (emit (Ev.logLine LogK.downloadingFile) s)).2 = s3 := by
              rw [heq]
            rcases ih s3 e h with h1 | h1
            · have he3 : e ∈ (recF (url ++ h2) dest
                  (emit (Ev.logLine LogK.downloadingFile) s)).2.events := by
                rw [hs3]; exact h1
              rcases hF (url ++ h2) dest _ e he3 with h3 | h3
              · exact hstep e h3
              · exact Or.inr h3
            · exact Or.inr h1
          · intro h
            rcases hF (url ++ h2) dest _ e h with h3 | h3
            · exact hstep e h3
            · exact Or.inr h3

theorem dd3Ua (env : Env) (username password : String) :
    ∀ (fuel : Nat) (url dest : String) (s : St) (e : Ev),
      e ∈ (T3.download_directory env username password fuel url dest s).2.events →
      e ∈ s.events ∨ UaOK e := by
  intro fuel
  induction fuel with
  | zero => intro url dest s e h; exact Or.inl h
  | succ fuel ih =>
    intro url dest s e h
    simp only [T3.download_directory, readCancel] at h
    cases hcan : env.cancel s.flagI
    · simp only [hcan] at h
      revert h
      split
      next e2 s2 heq =>
        intro h
        have hs2 : (listingGet env url false { s with flagI := s.flagI + 1 }).2 = s2 := by
          rw [heq]
        rw [listingGet_snd] at hs2
        have he2 : s2.events = s.events ++ [Ev.reqListing url false] := by rw [← hs2]
        rcases ih url dest _ e h with h1 | h1
        · simp only [emit, List.mem_append, he2] at h1
          rcases h1 with ((h1 | h1) | h1) | h1
          · exact Or.inl h1
          all_goals
            right
            simp only [List.mem_singleton] at h1
            subst h1
            trivial
        · exact Or.inr h1
      next s2 heq =>
        intro h
        have hs2 : (listingGet env url false { s with flagI := s.flagI + 1 }).2 = s2 := by
          rw [heq]
        rw [listingGet_snd] at hs2
        have he2 : s2.events = s.events ++ [Ev.reqListing url false] := by rw [← hs2]
        rw [he2] at h
        simp only [List.mem_append] at h
        rcases h with h | h
        · exact Or.inl h
        · right
          simp only [List.mem_singleton] at h
          subst h
          trivial
      next status anchors s2 heq =>
        intro h
        have hs2 : (listingGet env url false { s with flagI := s.flagI + 1 }).2 = s2 := by
          rw [heq]
        rw [listingGet_snd] at hs2
        have he2 : s2.events = s.events ++ [Ev.reqListing url false] := by rw [← hs2]
        have hmem2 : ∀ e2, e2 ∈ s2.events → e2 ∈ s.events ∨ UaOK e2 := by
          intro e2 he
          rw [he2] at he
          simp only [List.mem_append] at he
          rcases he with he | he
          · exact Or.inl he
          · right
            simp only [List.mem_singleton] at he
            subst he
            trivial
        revert h
        by_cases hst : status = 200
        · rw [if_pos hst]
          have hwalk := ddLinksUa _ _ (fun u d t e2 => ih u d t e2)
            (fun u d t e2 => df3Ua env fuel u d username password t e2) url dest anchors s2
          split
          · rename_i s3 heq2
            intro h
            rcases ih url dest _ e h with h1 | h1
            · simp only [emit, List.mem_append] at h1
              rcases h1 with (h1 | h1) | h1
              · have := hwalk e
                rw [heq2] at this
                rcases this h1 with h3 | h3
                · exact hmem2 e h3
                · exact Or.inr h3
              all_goals
                right
                simp only [List.mem_singleton] at h1
                subst h1
                trivial
            · exact Or.inr h1
          · intro h
            rcases hwalk e h with h3 | h3
            · exact hmem2 e h3
            · exact Or.inr h3
        · rw [if_neg hst]
          intro h
          simp only [emit, List.mem_append] at h
          rcases h with h | h
          · exact hmem2 e h
          · right
            simp only [List.mem_singleton] at h
            subst h
            trivial
    · simp only [hcan] at h
      simp only [emit, List.mem_append] at h
      rcases h with h | h
      · exact Or.inl h
      · right
        simp only [List.mem_singleton] at h
        subst h
        trivial

/-- C9 (amended): in a test-3 run (either mode, from the initial state) the
User-Agent discipline is: every stream-open request carries the fixed
User-Agent header, and every listing fetch is issued without it — so no
`reqStream` event with the header absent and no `reqListing` event with the
header present ever appears in the trace.  (In test.py no request at all
carries the header.) -/
theorem c9_user_agent_amended (env : Env) (fuel : Nat) (sf : Bool)
    (url dest username password : String) (led : List String) :
    (∀ v a, Ev.reqStream v false a ∉
      (T3.run env fuel sf url dest username password (initSt led)).2.events) ∧
    (∀ v, Ev.reqListing v true ∉
      (T3.run env fuel sf url dest username password (initSt led)).2.events) := by
  have hbody : ∀ e, e ∈ (T3.runBody env fuel sf url dest username password
      (initSt led)).2.events → UaOK e := by
    intro e h
    have hsplit : e ∈ (initSt led).events ∨ UaOK e := by
      simp only [T3.runBody] at h
      by_cases hsf : sf = true
      · rw [if_pos hsf] at h
        exact df3Ua env fuel url dest username password (initSt led) e h
      · rw [if_neg hsf] at h
        revert h
        split
        next n s1 heqc =>
          intro h
          have hcp : CPres (initSt led) s1 := by
            have := count_all env fuel url (initSt led)
            rw [heqc] at this
            exact this
          have hmem1 : ∀ e2, e2 ∈ s1.events → e2 ∈ (initSt led).events ∨ UaOK e2 := by
            intro e2 he
            rcases hcp.2.2.2.2.2.2.2.2.2.2 e2 he with h2 | ⟨u2, h2⟩
            · exact Or.inl h2
            · right
              subst h2
              trivial
          rcases dd3Ua env username password fuel url dest _ e h with h1 | h1
          · simp only [emit, List.mem_append] at h1
            rcases h1 with h1 | h1
            · exact hmem1 e h1
            · right
              simp only [List.mem_singleton] at h1
              subst h1
              trivial
          · exact Or.inr h1
        next e2 s1 heqc =>
          intro h
          have hcp : CPres (initSt led) s1 := by
            have := count_all env fuel url (initSt led)
            rw [heqc] at this
            exact this
          rcases hcp.2.2.2.2.2.2.2.2.2.2 e h with h2 | ⟨u2, h2⟩
          · exact Or.inl h2
          · right
            subst h2
            trivial
        next s1 heqc =>
          intro h
          have hcp : CPres (initSt led) s1 := by
            have := count_all env fuel url (initSt led)
            rw [heqc] at this
            exact this
          rcases hcp.2.2.2.2.2.2.2.2.2.2 e h with h2 | ⟨u2, h2⟩
          · exact Or.inl h2
          · right
            subst h2
            trivial
    rcases hsplit with h1 | h1
    · simp [initSt] at h1
    · exact h1
  have hrun : ∀ e, e ∈ (T3.run env fuel sf url dest username password
      (initSt led)).2.events → UaOK e := by
    intro e h
    rcases hb : T3.runBody env fuel sf url dest username password (initSt led) with ⟨rb, sb⟩
    have hbody2 : ∀ e2, e2 ∈ sb.events → UaOK e2 := by
      intro e2 he
      apply hbody
      rw [hb]
      exact he
    simp only [T3.run, hb, readCancel] at h
    cases rb with
    | ok a =>
      revert h
      cases hcl : env.cancel sb.flagI
      · simp only [hcl]
        intro h
        simp only [emit, List.mem_append] at h
        rcases h with h | h
        · exact hbody2 e h
        · simp only [List.mem_singleton] at h
          subst h
          trivial
      · simp only [hcl]
        intro h
        exact hbody2 e (by simpa using h)
    | exn e2 =>
      simp only [emit, List.mem_append] at h
      rcases h with h | h
      · exact hbody2 e h
      · simp only [List.mem_singleton] at h
        subst h
        trivial
    | div => exact hbody2 e h
  constructor
  · intro v a hmem
    have := hrun _ hmem
    simp [UaOK] at this
  · intro v hmem
    have := hrun _ hmem
    simp [UaOK] at this

/-- Witness for C9's amended statement on a concrete test-3 directory run. -/
theorem c9_witness :
    (∀ v a, Ev.reqStream v false a ∉
      (T3.run envC9x 6 false "r/" "d" "" "" (initSt [])).2.events) ∧
    (∀ v, Ev.reqListing v true ∉
      (T3.run envC9x 6 false "r/" "d" "" "" (initSt [])).2.events) :=
  c9_user_agent_amended envC9x 6 false "r/" "d" "" "" []

/-- One unfolding of count_files. -/
theorem count_files_succ (env : Env) (fuel : Nat) (url : String) (s : St) :
    count_files env (fuel + 1) url s =
      match listingGet env url false s with
      | (Res.exn _, s1) => (Res.ok 0, s1)
      | (Res.div, s1) => (Res.div, s1)
      | (Res.ok (status, anchors), s1) =>
        if status = 200 then
          countLinks url (fun u t => count_files env fuel u t) anchors 0 s1
        else (Res.ok 0, s1) := rfl

/-- Entering count_files with fuel records the listing request for exactly
the URL it was given. -/
theorem count_emits_request (env : Env) (fuel : Nat) (url : String) (s : St) :
    Ev.reqListing url false ∈ (count_files env (fuel + 1) url s).2.events := by
  simp only [count_files]
  split
  next e s1 heq =>
    have hs1 : (listingGet env url false s).2 = s1 := by rw [heq]
    rw [listingGet_snd] at hs1
    rw [← hs1]
    simp
  next s1 heq =>
    have hs1 : (listingGet env url false s).2 = s1 := by rw [heq]
    rw [listingGet_snd] at hs1
    rw [← hs1]
    simp
  next status anchors s1 heq =>
    have hs1 : (listingGet env url false s).2 = s1 := by rw [heq]
    rw [listingGet_snd] at hs1
    have hin : Ev.reqListing url false ∈ s1.events := by
      rw [← hs1]
      simp
    split
    · exact (countLinks_all url _ (fun u t => count_all env fuel u t)
        anchors 0 s1).2.2.2.2.2.2.2.2.2.1 _ hin
    · exact hin

/-- Recursing into a directory anchor during counting fetches the listing of
the concatenation of the listing URL and the href. -/
theorem countLinksC_emits (env : Env) (fuel : Nat) (url h : String)
    (rest : List (Option String)) (acc : Nat) (t : St)
    (hnav : ¬(h = "../" ∨ h = "./")) (hA : endsWithSlash h = true) :
    Ev.reqListing (url ++ h) false ∈
      (countLinks url (fun u t2 => count_files env (fuel + 1) u t2)
        (some h :: rest) acc t).2.events := by
  simp only [countLinks]
  rw [if_neg hnav, if_pos hA]
  rcases hr : count_files env (fuel + 1) (url ++ h) t with ⟨rr, rs⟩
  have hin : Ev.reqListing (url ++ h) false ∈ rs.events := by
    have h0 := count_emits_request env fuel (url ++ h) t
    rw [hr] at h0
    exact h0
  match rr with
  | Res.ok n =>
    exact (countLinks_all url _ (fun u t2 => count_all env (fuel + 1) u t2)
      rest (acc + n) rs).2.2.2.2.2.2.2.2.2.1 _ hin
  | Res.exn PyErr.reqExc => exact hin
  | Res.exn PyErr.zeroDiv => exact hin
  | Res.exn PyErr.typeErr => exact hin
  | Res.exn PyErr.keyErr => exact hin
  | Res.div => exact hin

/-- test.py's retry loop opens the byte stream at exactly the URL it was
given (when the cancel flag stays unset and there is fuel to reach it). -/
theorem dfLoop1_emits (env : Env) (fuel : Nat) (url fp : String) (s : St)
    (hc : ∀ i, env.cancel i = false) :
    Ev.reqStream url false false ∈ (T1.dfLoop env (fuel + 1) url fp s).2.events := by
  simp only [T1.dfLoop, readCancel, hc]
  split
  next e s2 heq =>
    have hs2 : (streamGet env url false false { s with flagI := s.flagI + 1 }).2 = s2 := by
      rw [heq]
    rw [streamGet_snd] at hs2
    have hin : Ev.reqStream url false false ∈ s2.events := by
      rw [← hs2]
      simp
    have hin2 : Ev.reqStream url false false ∈
        (emit (Ev.sleep 60) (emit Ev.msgBox (emit (Ev.logLine LogK.netIssue) s2))).events := by
      simp [emit, hin]
    exact (dfLoop1_all env fuel url fp _).1.2.2.2.1 _ hin2
  next s2 heq =>
    have hs2 : (streamGet env url false false { s with flagI := s.flagI + 1 }).2 = s2 := by
      rw [heq]
    rw [streamGet_snd] at hs2
    rw [← hs2]
    simp
  next r s2 heq =>
    have hs2 : (streamGet env url false false { s with flagI := s.flagI + 1 }).2 = s2 := by
      rw [heq]
    rw [streamGet_snd] at hs2
    have hin : Ev.reqStream url false false ∈ s2.events := by
      rw [← hs2]
      simp
    by_cases hst : r.status = 200
    · rw [if_pos hst]
      split
      next bytes s3 hck =>
        have h1 : Ev.reqStream url false false ∈ s3.events :=
          (stepR_of_chunk env _ _ _ _ _ _ _ hck).2.2.2.1 _ hin
        exact (postOk1_spec env r.contentLength bytes fp s3).1.2.2.2.1 _ h1
      next s3 hck =>
        exact (stepR_of_chunk env _ _ _ _ _ _ _ hck).2.2.2.1 _ hin
      next s3 hck =>
        have h1 : Ev.reqStream url false false ∈ s3.events :=
          (stepR_of_chunk env _ _ _ _ _ _ _ hck).2.2.2.1 _ hin
        have h2 : Ev.reqStream url false false ∈
            (emit (Ev.sleep 60) (emit Ev.msgBox (emit (Ev.logLine LogK.netIssue) s3))).events := by
          simp [emit, h1]
        exact (dfLoop1_all env fuel url fp _).1.2.2.2.1 _ h2
      next e2 s3 hne hck =>
        exact (stepR_of_chunk env _ _ _ _ _ _ _ hck).2.2.2.1 _ hin
      next s3 hck =>
        exact (stepR_of_chunk env _ _ _ _ _ _ _ hck).2.2.2.1 _ hin
    · rw [if_neg hst]
      simp [emit, hin]

/-- test.py's download_file streams from exactly the URL it receives. -/
theorem df1_emits (env : Env) (fuel : Nat) (url dest : String) (s : St)
    (hc : ∀ i, env.cancel i = false)
    (hn : pjoin dest (afterLastSlash url) ∉ s.completed_files) :
    Ev.reqStream url false false ∈
      (T1.download_file env (fuel + 1) url dest s).2.events := by
  simp only [T1.download_file, readCancel, hc]
  rw [if_neg (by simpa using hn)]
  exact dfLoop1_emits env fuel url _ _ hc

/-- Crawling a file anchor opens the byte stream at the concatenation of the
listing URL and the href. -/
theorem ddLinksF_emits (env : Env) (fuel : Nat) (url dest h : String)
    (rest : List (Option String)) (t : St)
    (hnav : ¬(h = "../" ∨ h = "./")) (hA : endsWithSlash h = false)
    (hc : ∀ i, env.cancel i = false)
    (hn : pjoin dest (afterLastSlash (url ++ h)) ∉ t.completed_files) :
    Ev.reqStream (url ++ h) false false ∈
      (ddLinks (fun u d t2 => T1.download_directory env (fuel + 1) u d t2)
        (fun u d t2 => T1.download_file env (fuel + 1) u d t2)
        url dest (some h :: rest) t).2.events := by
  simp only [ddLinks]
  rw [if_neg hnav, if_neg (by simp [hA])]
  rcases hr : T1.download_file env (fuel + 1) (url ++ h) dest
      (emit (Ev.logLine LogK.downloadingFile) t) with ⟨rr, rs⟩
  have hin : Ev.reqStream (url ++ h) false false ∈ rs.events := by
    have h0 := df1_emits env fuel (url ++ h) dest
      (emit (Ev.logLine LogK.downloadingFile) t) hc (by simpa [emit] using hn)
    rw [hr] at h0
    exact h0
  match rr with
  | Res.ok a =>
    exact (ddLinks_all env _ _ (fun u d t2 => dd1_all env (fuel + 1) u d t2)
      (fun u d t2 => (df1_all env (fuel + 1) u d t2).1)
      url dest rest rs).2.2.2.1 _ hin
  | Res.exn e => exact hin
  | Res.div => exact hin

/-- One unfolding of test.py's download_directory. -/
theorem dd1_succ (env : Env) (fuel : Nat) (url dest : String) (s : St) :
    T1.download_directory env (fuel + 1) url dest s =
      match readCancel env s with
      | (true, s1) => (Res.ok (), emit Ev.canceled s1)
      | (false, s1) =>
        match listingGet env url false s1 with
        | (Res.exn _, s2) =>
          T1.download_directory env fuel url dest
            (emit (Ev.sleep 60) (emit Ev.msgBox (emit (Ev.logLine LogK.netIssue) s2)))
        | (Res.div, s2) => (Res.div, s2)
        | (Res.ok (status, anchors), s2) =>
          if status = 200 then
            match ddLinks (fun u d t => T1.download_directory env fuel u d t)
                (fun u d t => T1.download_file env fuel u d t) url dest anchors s2 with
            | (Res.exn PyErr.reqExc, s3) =>
              T1.download_directory env fuel url dest
                (emit (Ev.sleep 60) (emit Ev.msgBox (emit (Ev.logLine LogK.netIssue) s3)))
            | r => r
          else (Res.ok (), emit (Ev.logLine LogK.failedAccess) s2) := rfl

/-- C10: the child URL of every listing entry processed while counting or
crawling is the plain string concatenation url ++ href, with no
relative-reference resolution: the recursive count fetches the listing of
url ++ href for a directory anchor, and the crawl opens the byte stream at
url ++ href for a file anchor — even when the href is an absolute URL. -/
theorem c10_child_url_is_concatenation (env : Env) (fuel : Nat)
    (url dest h : String) (s : St)
    (hlist : env.listing url (s.listA url) = ListingResp.ok 200 [some h])
    (hnav : ¬(h = "../" ∨ h = "./"))
    (hc : ∀ i, env.cancel i = false) :
    (endsWithSlash h = true →
      Ev.reqListing (url ++ h) false ∈
        (count_files env (fuel + 2) url s).2.events) ∧
    (endsWithSlash h = false →
      pjoin dest (afterLastSlash (url ++ h)) ∉ s.completed_files →
      Ev.reqStream (url ++ h) false false ∈
        (T1.download_directory env (fuel + 2) url dest s).2.events) := by
  constructor
  · intro hA
    show Ev.reqListing (url ++ h) false ∈
      (count_files env (fuel + 1 + 1) url s).2.events
    rw [count_files_succ]
    split
    next eX s1 heq =>
      have h2 := listingGet_err_inv heq
      rw [hlist] at h2
      simp at h2
    next s1 heq =>
      simp only [listingGet] at heq
      rw [hlist] at heq
      simp at heq
    next status anchors s1 heq =>
      have hst := listingGet_ok_inv heq
      rw [hlist] at hst
      injection hst with hst1 hst2
      subst hst1
      subst hst2
      rw [if_pos rfl]
      exact countLinksC_emits env fuel url h [] 0 _ hnav hA
  · intro hA hn
    show Ev.reqStream (url ++ h) false false ∈
      (T1.download_directory env (fuel + 1 + 1) url dest s).2.events
    rw [dd1_succ]
    simp only [readCancel, hc]
    split
    next eX s2 heq =>
      have h2a := listingGet_err_inv heq
      have h2 : env.listing url (s.listA url) = ListingResp.netErr := h2a
      rw [hlist] at h2
      simp at h2
    next s2 heq =>
      simp only [listingGet] at heq
      rw [hlist] at heq
      simp at heq
    next status anchors s2 heq =>
      have hst0 := listingGet_ok_inv heq
      have hst : env.listing url (s.listA url) = ListingResp.ok status anchors := hst0
      rw [hlist] at hst
      injection hst with hst1 hst2
      subst hst1
      subst hst2
      have hs2 : (listingGet env url false { s with flagI := s.flagI + 1 }).2 = s2 := by
        rw [heq]
      rw [listingGet_snd] at hs2
      have hcomp : s2.completed_files = s.completed_files := by rw [← hs2]
      rw [if_pos rfl]
      have hnX : pjoin dest (afterLastSlash (url ++ h)) ∉ s2.completed_files := by
        rw [hcomp]
        exact hn
      have h0 := ddLinksF_emits env fuel url dest h [] s2 hnav hA hc hnX
      split
      next s3 heq2 =>
        rw [heq2] at h0
        refine (dd1_all env (fuel + 1) url dest _).2.2.2.1 _ ?_
        simp only [emit, List.mem_append]
        exact Or.inl (Or.inl (Or.inl h0))
      next =>
        exact h0

/-- Witness for C10 on concrete listings: the directory anchor `sub/` under
`a/` is counted at `a/sub/`, and the absolute-URL file anchor `http://x/f`
under `b/` is streamed from the concatenated `b/http://x/f`, not from
`http://x/f` itself. -/
theorem c10_witness :
    Ev.reqListing ("a/" ++ "sub/") false ∈
      (count_files envC10x (1 + 2) "a/" (initSt [])).2.events ∧
    Ev.reqStream ("b/" ++ "http://x/f") false false ∈
      (T1.download_directory envC10x (1 + 2) "b/" "d" (initSt [])).2.events :=
  ⟨(c10_child_url_is_concatenation envC10x 1 "a/" "d" "sub/" (initSt [])
      (by rfl) (by decide) (fun i => rfl)).1 (by rfl),
   (c10_child_url_is_concatenation envC10x 1 "b/" "d" "http://x/f" (initSt [])
      (by rfl) (by decide) (fun i => rfl)).2 (by rfl) (by simp [initSt])⟩

/-- C1: when the content-length header is missing or zero and a chunk is
written, the per-file progress computation
`int(f.tell() / file_size * 100)` (test.py line 112, test-3.py line 129)
raises ZeroDivisionError instead of treating the percentage as 0 or omitting
the emission: evaluating test.py's download_file on a 200 response with
parsed size 0 and one 7-byte chunk ends in the ZeroDivisionError, with the
trace showing the request and the write but no progress emission. -/
theorem c1_zero_content_length_division_fault :
    (T1.download_file envC1x 5 "h/f.bin" "d" (initSt [])).1 = Res.exn PyErr.zeroDiv ∧
    (T1.download_file envC1x 5 "h/f.bin" "d" (initSt [])).2.events =
      [Ev.reqStream "h/f.bin" false false, Ev.fileWrite 7] :=
  ⟨rfl, rfl⟩

/-- C2 counterexample: after the counting pass completed (total_files was
set to 0 because the root listing fetch raised a transport error, which
count_files swallows), the crawl retried the same listing successfully and
downloaded a file, so downloadedFiles (= 1) exceeds totalFiles (= 0). -/
theorem c2_counterexample :
    (T1.run envC2x 10 "r/" "d" (initSt [])).2.total_files <
      (T1.run envC2x 10 "r/" "d" (initSt [])).2.downloaded_files := by
  decide

/-- C4 counterexample: a run on which cancel() was never issued (the cancel
flag reads false at every suspension point) and that terminates by the
caught ZeroDivisionError emits *neither* terminal notification, so it is
not the case that exactly one of the two fires, nor that the completed
event is emitted iff the run finishes with the cancel flag unset. -/
theorem c4_counterexample :
    envC4x.cancel = (fun _ => false) ∧
    Ev.complete ∉ (T1.run envC4x 10 "r/" "d" (initSt [])).2.events ∧
    Ev.canceled ∉ (T1.run envC4x 10 "r/" "d" (initSt [])).2.events :=
  ⟨rfl, by decide, by decide⟩

/-- C8 counterexample: a listing whose only anchor lacks an href attribute
makes listing processing raise a TypeError (`url + None`, test.py line 73)
rather than yielding an (empty) sequence of entries. -/
theorem c8_counterexample :
    (count_files envC8x 5 "r/" (initSt [])).1 = Res.exn PyErr.typeErr := rfl

/-- C9 counterexample: during a test-3 directory run the listing fetches of
count_files and download_directory are issued without the fixed User-Agent
header (requests.get(url) with no headers argument), so not every HTTP
request of a run carries the client identifier. -/
theorem c9_counterexample :
    Ev.reqListing "r/" false ∈ (T3.run envC9x 6 false "r/" "d" "" "" (initSt [])).2.events ∧
    Ev.reqListing "r/" true ∉ (T3.run envC9x 6 false "r/" "d" "" "" (initSt [])).2.events := by
  exact ⟨by decide, by decide⟩

end Downloader
